import Mathlib

/-!
Shallow embedding of `src/amd/OclCryptonightR_gen.cpp` (xmrig-amd): the
CryptonightR just-in-time OpenCL program generator and cache.

Pure code is translated to Lean functions.  The shared program cache is
explicit state (a `List CacheEntry` threaded through the functions).  Calls
into the external OpenCL service (`OclLib`, `OclCache`) and the log sink are
recorded as `Event`s in the order the code performs them, and their return
values are supplied by an `OclEnv` record, so every external outcome can be
examined.  Machine integers are modelled as `Nat`; the only arithmetic where
64-bit overflow could matter is the staleness comparison
`entry.height + PRECOMPILATION_DEPTH < height`, which is embedded with an
explicit `% 2^64`.
-/

namespace OclCnR

/-- Modelled from the spec: one step of the height-derived random-math
program.  The struct `V4_Instruction` is declared in
`crypto/CryptoNight_monero.h`, outside `src/`; per the spec it carries an
opcode from a fixed small set, a destination register index, a source
register index and an embedded constant used by add. -/
structure V4_Instruction where
  opcode : Nat
  dst_index : Nat
  src_index : Nat
  C : Nat
deriving DecidableEq, Repr, Inhabited

/-- Modelled from the spec: the opcode constants of the external instruction
enum.  Only their identities and mutual distinctness are used. -/
def MUL : Nat := 0

/-- Opcode constant: add with embedded constant. -/
def ADD : Nat := 1

/-- Opcode constant: subtract. -/
def SUB : Nat := 2

/-- Opcode constant: rotate right. -/
def ROR : Nat := 3

/-- Opcode constant: rotate left. -/
def ROL : Nat := 4

/-- Opcode constant: xor. -/
def XOR : Nat := 5

/-- Opcode constant: the external enum also contains a RET opcode which the
translator's switch does not handle. -/
def RET : Nat := 6

/-- Loop body of `get_code` (OclCryptonightR_gen.cpp lines 17-49): the text
appended to the stream for one instruction.  The switch emits one statement
for the six handled opcodes and nothing for any other opcode; the trailing
newline (line 48) is appended unconditionally. -/
def instLine (inst : V4_Instruction) : String :=
  (if inst.opcode = MUL then
    "r" ++ toString inst.dst_index ++ "*=r" ++ toString inst.src_index ++ ";"
  else if inst.opcode = ADD then
    "r" ++ toString inst.dst_index ++ "+=r" ++ toString inst.src_index ++ "+" ++
      toString inst.C ++ "U;"
  else if inst.opcode = SUB then
    "r" ++ toString inst.dst_index ++ "-=r" ++ toString inst.src_index ++ ";"
  else if inst.opcode = ROR ∨ inst.opcode = ROL then
    "r" ++ toString inst.dst_index ++ "=rotate(r" ++ toString inst.dst_index ++
      (if inst.opcode = ROR then ",ROT_BITS-r" else ",r") ++
      toString inst.src_index ++ ");"
  else if inst.opcode = XOR then
    "r" ++ toString inst.dst_index ++ "^=r" ++ toString inst.src_index ++ ";"
  else "") ++ "\n"

/-- Lines 13-52 (`get_code`): translate an instruction sequence into the
kernel source fragment by concatenating the per-instruction text. -/
def get_code : List V4_Instruction → String
  | [] => ""
  | inst :: rest => instLine inst ++ get_code rest

/-- Lines 54-69 (`struct CacheEntry`): one compiled-program record. -/
structure CacheEntry where
  variant : Nat
  height : Nat
  deviceIdx : Nat
  hash : String
  program : Nat
deriving DecidableEq, Repr, Inhabited

/-- The fields of `GpuContext` that this translation unit reads: the device
index, the device's outstanding non-cached program handle
(`ProgramCryptonightR`) and the memoized device description string. -/
structure GpuContext where
  deviceIdx : Nat
  ProgramCryptonightR : Nat
  DeviceString : String
deriving DecidableEq, Repr, Inhabited

/-- One call into an external collaborator (OpenCL service or log sink),
recorded in program order. -/
inductive Event where
  | releaseKernel (k : Nat)
  | releaseProgram (p : Nat)
  | createProgram (source : String)
  | buildProgram (p : Nat) (options : String)
  | waitBuild (p : Nat)
  | cacheInsert (e : CacheEntry)
  | logErr (msg : String) (code : Int)
deriving DecidableEq, Repr

/-- Whether an event is a call into the external build service (program
creation, build, or wait-for-build). -/
def Event.isBuildServiceCall : Event → Bool
  | .createProgram _ => true
  | .buildProgram _ _ => true
  | .waitBuild _ => true
  | _ => false

/-- Modelled from the spec: the fixed precompilation window (constant
`PRECOMPILATION_DEPTH` from a header outside `src/`).  The claims treat it
symbolically; its numeric value is irrelevant to every theorem below. -/
def PRECOMPILATION_DEPTH : Nat := 4

/-- Two to the sixty-fourth: heights are `uint64_t` in the source, so the sum
`entry.height + PRECOMPILATION_DEPTH` is computed modulo this. -/
def U64 : Nat := 18446744073709551616

/-- The OpenCL success return code. -/
def CL_SUCCESS : Int := 0

/-- Modelled from the spec: the enumerated algorithm-variant value
`VARIANT_WOW` (enum outside `src/`); only distinctness from `VARIANT_4`
matters. -/
def VARIANT_WOW : Nat := 12

/-- Modelled from the spec: the enumerated algorithm-variant value
`VARIANT_4`. -/
def VARIANT_4 : Nat := 16

/-- Line 259: the marker token spliced over in the kernel template. -/
def INCLUDE_NAME : String := "XMRIG_INCLUDE_RANDOM_MATH"

/-- Log text of line 214 (program creation failure). -/
def msgCreate : String := "CryptonightR: clCreateProgramWithSource returned error"

/-- Log text of line 222 (build failure). -/
def msgBuild : String := "CryptonightR: clBuildProgram returned error"

/-- Log text of line 230 (wait-for-build failure). -/
def msgWait : String := "CryptonightR: wait_build returned error"

/-- Log text of line 263 (marker token missing from the template). -/
def msgMarker : String :=
  "CryptonightR_get_program: XMRIG_INCLUDE_RANDOM_MATH not found in cryptonight_r.cl"

/-- Log text of line 278 (unknown variant requested). -/
def msgVariant : String := "CryptonightR_get_program: invalid variant"

/-- The four-field structural key comparison used by both cache lookups
(lines 197 and 311): variant, height, device index and fingerprint hash must
all match. -/
def matchKey (variant height deviceIdx : Nat) (hash : String) (e : CacheEntry) : Bool :=
  (e.variant == variant) && (e.height == height) && (e.deviceIdx == deviceIdx) &&
    (e.hash == hash)

/-- The linear cache scan of lines 195-202 / 309-316: first entry matching
all four key fields. -/
def lookup (cache : List CacheEntry) (variant height deviceIdx : Nat) (hash : String) :
    Option CacheEntry :=
  cache.find? (matchKey variant height deviceIdx hash)

/-- Placeholder entry used only as the (never-consulted) default of
`List.getLastD` inside `swapRemove`. -/
def defaultEntry : CacheEntry := ⟨0, 0, 0, "", 0⟩

/-- Lines 138-139 / 174-175: `cache[i] = std::move(cache.back());
cache.pop_back();` — overwrite position `i` with the last element and drop
the last element. -/
def swapRemove (c : List CacheEntry) (i : Nat) : List CacheEntry :=
  (c.set i (c.getLastD defaultEntry)).dropLast

/-- The scan-and-swap-remove loop shared by `CryptonightR_release`
(lines 132-145) and the stale-eviction block of `CryptonightR_build_program`
(lines 167-181): walk the cache from index `i`; an entry satisfying `p` is
appended to `r` and removed by `swapRemove` (so the index is re-examined),
otherwise the index advances.  `fuel` bounds the iteration count purely to
make the recursion structural; each iteration either removes an element or
advances the index, so `c.length - i` iterations always suffice and
`removeWhere` supplies exactly that. -/
def evictLoop (p : CacheEntry → Bool) :
    Nat → Nat → List CacheEntry → List CacheEntry → List CacheEntry × List CacheEntry
  | 0, _, c, r => (c, r)
  | fuel + 1, i, c, r =>
    if h : i < c.length then
      if p (c.get ⟨i, h⟩) then
        evictLoop p fuel i (swapRemove c i) (r ++ [c.get ⟨i, h⟩])
      else
        evictLoop p fuel (i + 1) c r
    else (c, r)

/-- Run the swap-remove scan over the whole cache: returns the surviving
cache and the removed entries in removal order. -/
def removeWhere (p : CacheEntry → Bool) (c : List CacheEntry) :
    List CacheEntry × List CacheEntry :=
  evictLoop p c.length 0 c []

/-- The staleness test of line 170: same variant and
`entry.height + PRECOMPILATION_DEPTH < height` in `uint64_t` arithmetic. -/
def stalePred (variant height : Nat) (e : CacheEntry) : Bool :=
  (e.variant == variant) &&
    decide ((e.height + PRECOMPILATION_DEPTH) % U64 < height)

/-- Lines 125-146 (`CryptonightR_release`): release the context's
outstanding non-cached program handle, then, under the cache lock, remove
every cache entry whose device index matches the context's.  The removed
entries' own program handles are not passed to `releaseProgram`; the
returned event list holds exactly the release calls the function makes. -/
def CryptonightR_release (ctx : GpuContext) (cache : List CacheEntry) :
    List CacheEntry × List Event :=
  ((removeWhere (fun e => e.deviceIdx == ctx.deviceIdx) cache).1,
   [Event.releaseProgram ctx.ProgramCryptonightR])

/-- Results and data supplied by the external collaborators for one request:
the kernel template text (the `#include`d `.cl` files, outside `src/`), the
baseline option string (`OclCache::getOptions`), the resolved device string
(`OclCache::get_device_string`, `none` = failure), the fingerprint function
(`OclCache::calc_hash`), the instruction generator (`v4_random_math_init`),
and the return codes / handle of `clCreateProgramWithSource`,
`clBuildProgram` and `OclCache::wait_build`. -/
structure OclEnv where
  template : String
  getOptionsBase : String
  deviceStringResolved : Option String
  calcHash : String → String → String → String
  randomMath : Nat → Nat → List V4_Instruction
  createRet : Int
  createdProgram : Nat
  buildRet : Int
  waitRet : Int

/-- Result of one request: the returned program handle (`none` = the C++
`nullptr`), the cache afterwards, and the external calls made. -/
structure BuildResult where
  program : Option Nat
  cache : List CacheEntry
  events : List Event
deriving DecidableEq, Repr

/-- Lines 209-241: the external build sequence run after the in-lock re-check
missed.  Create the program from source (on failure: log, return null);
build it (on failure: release the program, log, return null); wait for the
build (same failure handling); on success insert the new entry under the
cache lock and return the handle. -/
def buildPhase (env : OclEnv) (ctx : GpuContext) (variant height : Nat)
    (source options hash : String) (cache1 : List CacheEntry) : BuildResult :=
  if env.createRet ≠ CL_SUCCESS then
    ⟨none, cache1,
     [Event.createProgram source, Event.logErr msgCreate env.createRet]⟩
  else if env.buildRet ≠ CL_SUCCESS then
    ⟨none, cache1,
     [Event.createProgram source, Event.buildProgram env.createdProgram options,
      Event.releaseProgram env.createdProgram, Event.logErr msgBuild env.buildRet]⟩
  else if env.waitRet ≠ CL_SUCCESS then
    ⟨none, cache1,
     [Event.createProgram source, Event.buildProgram env.createdProgram options,
      Event.waitBuild env.createdProgram,
      Event.releaseProgram env.createdProgram, Event.logErr msgWait env.waitRet]⟩
  else
    ⟨some env.createdProgram,
     cache1 ++ [⟨variant, height, ctx.deviceIdx, hash, env.createdProgram⟩],
     [Event.createProgram source, Event.buildProgram env.createdProgram options,
      Event.waitBuild env.createdProgram,
      Event.cacheInsert ⟨variant, height, ctx.deviceIdx, hash, env.createdProgram⟩]⟩

/-- Lines 148-241 (`CryptonightR_build_program`): release the outgoing
kernel handle if one was supplied (lines 157-159); under the cache lock
remove stale entries of this variant (lines 161-182) and release their
programs outside the lock (lines 184-186); take the build lock and re-check
the cache (lines 188-207), returning the cached handle on a hit; otherwise
run the external build sequence. -/
def CryptonightR_build_program (env : OclEnv) (ctx : GpuContext)
    (variant height : Nat) (old_kernel : Option Nat)
    (source options hash : String) (cache : List CacheEntry) : BuildResult :=
  let ev0 : List Event :=
    match old_kernel with
    | some k => [Event.releaseKernel k]
    | none => []
  let er := removeWhere (stalePred variant height) cache
  let evicted := er.2.map (fun e => Event.releaseProgram e.program)
  match lookup er.1 variant height ctx.deviceIdx hash with
  | some e => ⟨some e.program, er.1, ev0 ++ evicted⟩
  | none =>
    let b := buildPhase env ctx variant height source options hash er.1
    ⟨b.program, b.cache, ev0 ++ evicted ++ b.events⟩

/-- Line 243-246 (`is_64bit`): always false. -/
def is_64bit (_variant : Nat) : Bool := false

/-- Character-list substring search: index of the first position of `hay`
at which `needle` is a prefix, the semantics of C `strstr` (line 260). -/
def findSub (needle : List Char) : List Char → Option Nat
  | [] => if needle.isPrefixOf ([] : List Char) then some 0 else none
  | c :: hs =>
    if needle.isPrefixOf (c :: hs) then some 0
    else (findSub needle hs).map (· + 1)

/-- Line 260: `strstr(source_code_template, include_name)`, as an offset. -/
def strstr (hay needle : String) : Option Nat :=
  findSub needle.data hay.data

/-- Lines 282-284: assembled source = template text before the marker
occurrence at `off`, then the translated fragment, then the template text
after that occurrence of the marker. -/
def spliceAt (template frag : String) (off : Nat) : String :=
  ⟨template.data.take off ++ frag.data ++
    template.data.drop (off + INCLUDE_NAME.length)⟩

/-- Lines 286-296: the option string — baseline options from the external
helper, the variant selector flag, and (never, since `is_64bit` is constant
false) the 64-bit random-math flag. -/
def assembledOptions (env : OclEnv) (variant : Nat) : String :=
  env.getOptionsBase ++ " -DVARIANT=" ++ toString variant ++
    (if is_64bit variant then " -DRANDOM_MATH_64_BIT" else "")

/-- Lines 300-302: the device string — the context's memoized value if
non-empty, otherwise the result of `OclCache::get_device_string` (`none` =
resolution failure, which fails the request). -/
def deviceStringOf (env : OclEnv) (ctx : GpuContext) : Option String :=
  if ctx.DeviceString.isEmpty then env.deviceStringResolved else some ctx.DeviceString

/-- The fingerprint a request computes at line 303 (when it gets that far):
`calc_hash(deviceString, source, options)` over the assembled source and
options. -/
def requestHash (env : OclEnv) (ctx : GpuContext) (variant height : Nat) : Option String :=
  (strstr env.template INCLUDE_NAME).bind fun off =>
    (deviceStringOf env ctx).map fun dev =>
      env.calcHash dev
        (spliceAt env.template (get_code (env.randomMath variant height)) off)
        (assembledOptions env variant)

/-- Lines 248-320 (`CryptonightR_get_program`): the public entry point.
`background = true` only schedules the synchronous path onto the task queue
and returns null at once (lines 250-253); the model records the immediate
behaviour.  Synchronously: find the marker in the template (fatal,
logged, if absent); generate the random-math program for the variant
(fatal, logged, for any variant other than WOW/4); splice the translated
fragment into the template; assemble options; resolve the device string
(fatal if it fails); fingerprint; return the cached entry's program on a
cache hit, else hand off to `CryptonightR_build_program`. -/
def CryptonightR_get_program (env : OclEnv) (ctx : GpuContext)
    (variant height : Nat) (background : Bool) (old_kernel : Option Nat)
    (cache : List CacheEntry) : BuildResult :=
  if background then ⟨none, cache, []⟩
  else
    match strstr env.template INCLUDE_NAME with
    | none => ⟨none, cache, [Event.logErr msgMarker (Int.ofNat variant)]⟩
    | some off =>
      if variant = VARIANT_WOW ∨ variant = VARIANT_4 then
        let source := spliceAt env.template (get_code (env.randomMath variant height)) off
        let options := assembledOptions env variant
        match deviceStringOf env ctx with
        | none => ⟨none, cache, []⟩
        | some dev =>
          let hash := env.calcHash dev source options
          match lookup cache variant height ctx.deviceIdx hash with
          | some e => ⟨some e.program, cache, []⟩
          | none =>
            CryptonightR_build_program env ctx variant height old_kernel
              source options hash cache
      else ⟨none, cache, [Event.logErr msgVariant (Int.ofNat variant)]⟩

/-!
### Concurrent execution model for the build path

`CryptonightR_build_program` brackets all of its shared-state accesses in
three critical sections (the eviction scan under the cache lock, the re-check
under the cache lock, the insert under the cache lock) plus one external
build call, all but the first performed while holding the process-wide
`CryptonightR_build_mutex` (line 188, released at return).  The transition
system below runs `n` threads through `CryptonightR_get_program`'s
synchronous path for one shared key; each constructor is one lock-bracketed
critical section (or the external build call), so every interleaving of the
real threads is a trace of this relation:
`lookup1` = the pre-lock cache check (lines 305-317), `evictStep` = the
stale-entry scan (lines 161-186), `acquireStep` = taking the build mutex
(line 188), `recheck`/`buildStep`/`buildFailStep`/`insertStep` =
lines 190-241, with the mutex released (`owner := none`) where the C++ scope
ends.  The outcome of the `b`-th external build call is chosen by an oracle
`buildOk b`: on success the call hands out the handle `progOf b` and the
thread goes on to insert it (lines 236-240); on failure — creation, build,
or wait-for-build error, lines 212-232 — the thread returns null without
touching the cache and the mutex is released. -/

/-- The shared request key: variant, height, device index, fingerprint. -/
structure Key where
  variant : Nat
  height : Nat
  deviceIdx : Nat
  hash : String
deriving DecidableEq, Repr

/-- The cache entry a successful build of key `k` inserts (line 238). -/
def keyEntry (k : Key) (p : Nat) : CacheEntry :=
  ⟨k.variant, k.height, k.deviceIdx, k.hash, p⟩

/-- Cache lookup with the request key. -/
def klookup (k : Key) (cache : List CacheEntry) : Option CacheEntry :=
  lookup cache k.variant k.height k.deviceIdx k.hash

/-- Staleness predicate for the request key. -/
def kstale (k : Key) : CacheEntry → Bool :=
  stalePred k.variant k.height

/-- Program counter of one thread in the synchronous path. -/
inductive TState where
  | start
  | evict
  | acquire
  | recheck
  | build
  | insert (p : Nat)
  | done (r : Option Nat)
deriving DecidableEq, Repr

/-- Shared state of `n` threads: the program cache, the holder of the build
mutex, each thread's program counter, and the number of external build calls
made so far. -/
structure Sys (n : Nat) where
  cache : List CacheEntry
  owner : Option (Fin n)
  ts : Fin n → TState
  builds : Nat

/-- One atomic step of one thread (see the section comment for the
correspondence to source lines).  `buildStep` is an external build call that
succeeds (`buildOk s.builds = true`); `buildFailStep` is one that fails at
creation, build, or wait-for-build (lines 212-232): the thread finishes with
a null result, nothing is inserted, and the build mutex is released. -/
inductive Step (n : Nat) (k : Key) (progOf : Nat → Nat) (buildOk : Nat → Bool) :
    Sys n → Sys n → Prop where
  | lookup1_hit (s : Sys n) (i : Fin n) (e : CacheEntry) :
      s.ts i = .start → klookup k s.cache = some e →
      Step n k progOf buildOk s
        { s with ts := Function.update s.ts i (.done (some e.program)) }
  | lookup1_miss (s : Sys n) (i : Fin n) :
      s.ts i = .start → klookup k s.cache = none →
      Step n k progOf buildOk s { s with ts := Function.update s.ts i .evict }
  | evictStep (s : Sys n) (i : Fin n) :
      s.ts i = .evict →
      Step n k progOf buildOk s
        { s with cache := (removeWhere (kstale k) s.cache).1,
                 ts := Function.update s.ts i .acquire }
  | acquireStep (s : Sys n) (i : Fin n) :
      s.ts i = .acquire → s.owner = none →
      Step n k progOf buildOk s
        { s with owner := some i, ts := Function.update s.ts i .recheck }
  | recheck_hit (s : Sys n) (i : Fin n) (e : CacheEntry) :
      s.ts i = .recheck → s.owner = some i → klookup k s.cache = some e →
      Step n k progOf buildOk s
        { s with owner := none,
                 ts := Function.update s.ts i (.done (some e.program)) }
  | recheck_miss (s : Sys n) (i : Fin n) :
      s.ts i = .recheck → s.owner = some i → klookup k s.cache = none →
      Step n k progOf buildOk s { s with ts := Function.update s.ts i .build }
  | buildStep (s : Sys n) (i : Fin n) :
      s.ts i = .build → s.owner = some i → buildOk s.builds = true →
      Step n k progOf buildOk s
        { s with builds := s.builds + 1,
                 ts := Function.update s.ts i (.insert (progOf s.builds)) }
  | buildFailStep (s : Sys n) (i : Fin n) :
      s.ts i = .build → s.owner = some i → buildOk s.builds = false →
      Step n k progOf buildOk s
        { s with builds := s.builds + 1, owner := none,
                 ts := Function.update s.ts i (.done none) }
  | insertStep (s : Sys n) (i : Fin n) (p : Nat) :
      s.ts i = .insert p → s.owner = some i →
      Step n k progOf buildOk s
        { s with cache := s.cache ++ [keyEntry k p], owner := none,
                 ts := Function.update s.ts i (.done (some p)) }

/-- The cold-cache initial state: empty cache, free build mutex, every
thread about to make its first cache check, no build calls yet. -/
def Init (n : Nat) : Sys n := ⟨[], none, fun _ => .start, 0⟩

/-- Thread states that hold the build mutex. -/
def inLock : TState → Prop
  | .recheck => True
  | .build => True
  | .insert _ => True
  | _ => False

/-- Inductive invariant for the protocol: the mutex owner is the unique
thread inside the locked region, and the system is in one of three phases —
no build yet (empty cache, nobody done), one build pending insertion, or the
single built entry cached with every finished thread holding its program. -/
def Inv (n : Nat) (k : Key) (progOf : Nat → Nat) (s : Sys n) : Prop :=
  (∀ i : Fin n, inLock (s.ts i) → s.owner = some i) ∧
  ((s.builds = 0 ∧ s.cache = [] ∧
      ∀ i : Fin n, (∀ r, s.ts i ≠ .done r) ∧ (∀ p, s.ts i ≠ .insert p)) ∨
   (s.builds = 1 ∧ s.cache = [] ∧
      (∃ j : Fin n, s.ts j = .insert (progOf 0)) ∧
      (∀ i : Fin n, ∀ r, s.ts i ≠ .done r)) ∨
   (s.builds = 1 ∧ s.cache = [keyEntry k (progOf 0)] ∧
      (∀ i : Fin n, s.ts i ≠ .build ∧ ∀ p, s.ts i ≠ .insert p) ∧
      (∀ i : Fin n, ∀ r, s.ts i = .done r → r = some (progOf 0))))

/-- Inductive invariant for runs in which every external build call fails:
the mutex owner is the unique thread inside the locked region, the cache
stays empty (a failed build is never inserted, lines 212-232), no thread is
ever about to insert, and every finished thread observed a null result. -/
def InvFail (n : Nat) (s : Sys n) : Prop :=
  (∀ i : Fin n, inLock (s.ts i) → s.owner = some i) ∧
  s.cache = [] ∧
  (∀ i : Fin n, ∀ p, s.ts i ≠ TState.insert p) ∧
  (∀ i : Fin n, ∀ r, s.ts i = TState.done r → r = none)

/-!
### Concrete data used by witnesses and counterexamples
-/

/-- A concrete cache entry: variant WOW, height 100, device 0, fingerprint
"H", program handle 7. -/
def entryC : CacheEntry := ⟨VARIANT_WOW, 100, 0, "H", 7⟩

/-- A one-entry cache holding `entryC`. -/
def cacheC : List CacheEntry := [entryC]

/-- A concrete device context: device 0, outstanding handle 5, memoized
device string "dev". -/
def ctxC : GpuContext := ⟨0, 5, "dev"⟩

/-- A concrete environment: the template is exactly the marker token, the
instruction generator returns the empty program, every fingerprint is "H",
and all external build calls succeed handing out program 9. -/
def envC : OclEnv :=
  { template := "XMRIG_INCLUDE_RANDOM_MATH"
  , getOptionsBase := ""
  , deviceStringResolved := some "dev"
  , calcHash := fun _ _ _ => "H"
  , randomMath := fun _ _ => []
  , createRet := 0
  , createdProgram := 9
  , buildRet := 0
  , waitRet := 0 }

/-- `envC` with a one-character prefix and suffix around the marker. -/
def envC7 : OclEnv := { envC with template := "AXMRIG_INCLUDE_RANDOM_MATHB" }

/-- `envC` with a failing `clBuildProgram` call. -/
def envFailC : OclEnv := { envC with buildRet := -11 }

/-- A three-entry cache for the stale-eviction witness: a fresh entry of the
requested variant, a stale entry of the requested variant, and a stale-aged
entry of a different variant. -/
def cacheC4 : List CacheEntry :=
  [⟨VARIANT_WOW, 100, 0, "H", 7⟩, ⟨VARIANT_WOW, 90, 0, "G", 8⟩, ⟨VARIANT_4, 50, 0, "F", 9⟩]

/-- Concrete request key for the protocol witness. -/
def kC : Key := ⟨VARIANT_WOW, 100, 0, "H"⟩

/-- Concrete build-handle supply for the protocol witness. -/
def progC : Nat → Nat := fun _ => 42

/-- The unique thread index of a one-thread system. -/
def i0 : Fin 1 := ⟨0, Nat.zero_lt_one⟩

/-- Protocol witness trace, state 0: the initial state. -/
def s0C : Sys 1 := Init 1

/-- Protocol witness trace, state 1: after the thread's first cache check
misses. -/
def s1C : Sys 1 := { s0C with ts := Function.update s0C.ts i0 .evict }

/-- Protocol witness trace, state 2: after the (vacuous) stale eviction. -/
def s2C : Sys 1 :=
  { s1C with cache := (removeWhere (kstale kC) s1C.cache).1,
             ts := Function.update s1C.ts i0 .acquire }

/-- Protocol witness trace, state 3: after acquiring the build mutex. -/
def s3C : Sys 1 :=
  { s2C with owner := some i0, ts := Function.update s2C.ts i0 .recheck }

/-- Protocol witness trace, state 4: after the in-lock re-check misses. -/
def s4C : Sys 1 := { s3C with ts := Function.update s3C.ts i0 .build }

/-- Protocol witness trace, state 5: after the external build call. -/
def s5C : Sys 1 :=
  { s4C with builds := s4C.builds + 1,
             ts := Function.update s4C.ts i0 (.insert (progC s4C.builds)) }

/-- Protocol witness trace, state 6: after inserting the built entry and
releasing the mutex. -/
def s6C : Sys 1 :=
  { s5C with cache := s5C.cache ++ [keyEntry kC (progC 0)], owner := none,
             ts := Function.update s5C.ts i0 (.done (some (progC 0))) }

/-- Build oracle for the protocol witness: every external build succeeds. -/
def okC : Nat → Bool := fun _ => true

/-- Build oracle for the protocol counterexample: every external build
fails. -/
def failC : Nat → Bool := fun _ => false

/-- First thread index of a two-thread system. -/
def j0 : Fin 2 := ⟨0, Nat.zero_lt_two⟩

/-- Second thread index of a two-thread system. -/
def j1 : Fin 2 := ⟨1, Nat.one_lt_two⟩

/-- Failing-build trace, state 0: two threads, cold cache. -/
def f0C : Sys 2 := Init 2

/-- Failing-build trace, state 1: thread 0's first cache check misses. -/
def f1C : Sys 2 := { f0C with ts := Function.update f0C.ts j0 .evict }

/-- Failing-build trace, state 2: thread 0's (vacuous) stale eviction. -/
def f2C : Sys 2 :=
  { f1C with cache := (removeWhere (kstale kC) f1C.cache).1,
             ts := Function.update f1C.ts j0 .acquire }

/-- Failing-build trace, state 3: thread 0 acquires the build mutex. -/
def f3C : Sys 2 :=
  { f2C with owner := some j0, ts := Function.update f2C.ts j0 .recheck }

/-- Failing-build trace, state 4: thread 0's in-lock re-check misses. -/
def f4C : Sys 2 := { f3C with ts := Function.update f3C.ts j0 .build }

/-- Failing-build trace, state 5: thread 0's external build call fails —
first build call, null result, nothing cached, mutex released. -/
def f5C : Sys 2 :=
  { f4C with builds := f4C.builds + 1, owner := none,
             ts := Function.update f4C.ts j0 (.done none) }

/-- Failing-build trace, state 6: thread 1's first cache check misses (the
cache is still empty — the failed build was never inserted). -/
def f6C : Sys 2 := { f5C with ts := Function.update f5C.ts j1 .evict }

/-- Failing-build trace, state 7: thread 1's (vacuous) stale eviction. -/
def f7C : Sys 2 :=
  { f6C with cache := (removeWhere (kstale kC) f6C.cache).1,
             ts := Function.update f6C.ts j1 .acquire }

/-- Failing-build trace, state 8: thread 1 acquires the build mutex. -/
def f8C : Sys 2 :=
  { f7C with owner := some j1, ts := Function.update f7C.ts j1 .recheck }

/-- Failing-build trace, state 9: thread 1's in-lock re-check misses again. -/
def f9C : Sys 2 := { f8C with ts := Function.update f8C.ts j1 .build }

/-- Failing-build trace, state 10: thread 1's own external build call fails —
the second build call of the run; both threads are done observing null. -/
def f10C : Sys 2 :=
  { f9C with builds := f9C.builds + 1, owner := none,
             ts := Function.update f9C.ts j1 (.done none) }

/-!
### Lemmas about the swap-remove eviction loop
-/

theorem set_append_length (l₁ l₂ : List CacheEntry) (x : CacheEntry) :
    (l₁ ++ l₂).set l₁.length x = l₁ ++ l₂.set 0 x := by
  induction l₁ with
  | nil => rfl
  | cons a t ih => simp [ih]

/-- Swap-removing the last position just drops it. -/
theorem swapRemove_last (c₁ : List CacheEntry) (e : CacheEntry) :
    swapRemove (c₁ ++ [e]) c₁.length = c₁ := by
  unfold swapRemove
  rw [List.getLastD_concat, set_append_length]
  simp

/-- Swap-removing an interior position overwrites it with the last element
and drops the last position. -/
theorem swapRemove_mid (c₁ Y : List CacheEntry) (e z : CacheEntry) :
    swapRemove (c₁ ++ e :: (Y ++ [z])) c₁.length = c₁ ++ z :: Y := by
  have h1 : c₁ ++ e :: (Y ++ [z]) = (c₁ ++ e :: Y) ++ [z] := by simp
  unfold swapRemove
  rw [h1, List.getLastD_concat, ← h1, set_append_length]
  show (c₁ ++ z :: (Y ++ [z])).dropLast = _
  have h2 : c₁ ++ z :: (Y ++ [z]) = (c₁ ++ z :: Y) ++ [z] := by simp
  rw [h2, List.dropLast_concat]

/-- Main loop lemma: started at index `c₁.length` over the cache
`c₁ ++ c₂` with accumulator `r` (and enough fuel), the loop keeps the
already-scanned prefix `c₁` plus (up to order) the non-matching part of
`c₂`, and appends (up to order) the matching part of `c₂` to `r`. -/
theorem evictLoop_split (p : CacheEntry → Bool) :
    ∀ (fuel : Nat) (c₂ c₁ r : List CacheEntry), c₂.length ≤ fuel →
      List.Perm (evictLoop p fuel c₁.length (c₁ ++ c₂) r).1
        (c₁ ++ c₂.filter (fun e => !p e)) ∧
      List.Perm (evictLoop p fuel c₁.length (c₁ ++ c₂) r).2
        (r ++ c₂.filter p) := by
  intro fuel
  induction fuel with
  | zero =>
    intro c₂ c₁ r hle
    have h2 : c₂ = [] := List.eq_nil_of_length_eq_zero (Nat.le_zero.mp hle)
    subst h2
    simp [evictLoop]
  | succ fuel ih =>
    intro c₂ c₁ r hle
    match c₂ with
    | [] => simp [evictLoop]
    | e :: rest =>
      have hlen : c₁.length < (c₁ ++ e :: rest).length := by simp
      have hget : (c₁ ++ e :: rest).get ⟨c₁.length, hlen⟩ = e := by
        simp [List.get_eq_getElem, List.getElem_append_right]
      rw [evictLoop]
      rw [dif_pos hlen, hget]
      rcases hp : p e with hfalse | htrue
      · -- keep `e`, advance the index
        have h1 : c₁.length + 1 = (c₁ ++ [e]).length := by simp
        have h2 : c₁ ++ e :: rest = (c₁ ++ [e]) ++ rest := by simp
        rw [if_neg (by simp [hp]), h1, h2]
        have hrest : rest.length ≤ fuel := by simpa using hle
        obtain ⟨ih1, ih2⟩ := ih rest (c₁ ++ [e]) r hrest
        constructor
        · simpa [hp] using ih1
        · simpa [hp] using ih2
      · -- remove `e` by swapping in the last element
        rw [if_pos (by simp [hp])]
        rcases eq_or_ne rest [] with hnil | hne
        · subst hnil
          rw [show c₁ ++ [e] = c₁ ++ [e] from rfl, swapRemove_last]
          have hc : c₁ = c₁ ++ ([] : List CacheEntry) := by simp
          rw [hc]
          obtain ⟨ih1, ih2⟩ := ih [] c₁ (r ++ [e]) (by simp)
          constructor
          · simpa [hp] using ih1
          · simpa [hp] using ih2
        · obtain ⟨Y, z, hYz⟩ : ∃ Y z, rest = Y ++ [z] :=
            ⟨rest.dropLast, rest.getLast hne, (List.dropLast_append_getLast hne).symm⟩
          subst hYz
          rw [swapRemove_mid]
          have hzY : (z :: Y).length ≤ fuel := by simpa using hle
          obtain ⟨ih1, ih2⟩ := ih (z :: Y) c₁ (r ++ [e]) hzY
          have hperm : List.Perm (z :: Y) (Y ++ [z]) :=
            (List.perm_append_singleton z Y).symm
          constructor
          · refine ih1.trans ?_
            refine List.Perm.append_left c₁ ?_
            simpa [hp] using hperm.filter (fun x => !p x)
          · refine ih2.trans ?_
            have h3 : List.Perm ((z :: Y).filter p) ((Y ++ [z]).filter p) :=
              hperm.filter p
            have h4 : (r ++ [e]) ++ (z :: Y).filter p
                = r ++ e :: (z :: Y).filter p := by simp
            have h5 : r ++ (e :: (Y ++ [z])).filter p
                = r ++ e :: (Y ++ [z]).filter p := by simp [hp]
            rw [h4, h5]
            exact List.Perm.append_left r (h3.cons e)

/-- The surviving cache after the swap-remove scan is, up to order, the
entries not matching the predicate. -/
theorem removeWhere_fst_perm (p : CacheEntry → Bool) (c : List CacheEntry) :
    List.Perm (removeWhere p c).1 (c.filter (fun e => !p e)) := by
  have h := (evictLoop_split p c.length c [] [] (le_refl _)).1
  simpa [removeWhere] using h

/-- The removed-entry list of the swap-remove scan is, up to order, the
entries matching the predicate. -/
theorem removeWhere_snd_perm (p : CacheEntry → Bool) (c : List CacheEntry) :
    List.Perm (removeWhere p c).2 (c.filter p) := by
  have h := (evictLoop_split p c.length c [] [] (le_refl _)).2
  simpa [removeWhere] using h

theorem mem_removeWhere_fst {p : CacheEntry → Bool} {c : List CacheEntry} {e : CacheEntry} :
    e ∈ (removeWhere p c).1 ↔ e ∈ c ∧ p e = false := by
  rw [(removeWhere_fst_perm p c).mem_iff, List.mem_filter]
  simp

theorem mem_removeWhere_snd {p : CacheEntry → Bool} {c : List CacheEntry} {e : CacheEntry} :
    e ∈ (removeWhere p c).2 ↔ e ∈ c ∧ p e = true := by
  rw [(removeWhere_snd_perm p c).mem_iff, List.mem_filter]

theorem removeWhere_nil (p : CacheEntry → Bool) : removeWhere p [] = ([], []) := rfl

theorem removeWhere_singleton_keep {p : CacheEntry → Bool} {e : CacheEntry}
    (h : p e = false) : removeWhere p [e] = ([e], []) := by
  simp [removeWhere, evictLoop, h]

/-!
### Lemmas about cache lookup
-/

theorem matchKey_eq_true_iff {variant height deviceIdx : Nat} {hash : String}
    {e : CacheEntry} :
    matchKey variant height deviceIdx hash e = true ↔
      e.variant = variant ∧ e.height = height ∧ e.deviceIdx = deviceIdx ∧
        e.hash = hash := by
  simp [matchKey, and_assoc]

/-- A successful lookup returns a cache member matching the key on all four
fields. -/
theorem lookup_some {cache : List CacheEntry} {variant height deviceIdx : Nat}
    {hash : String} {e : CacheEntry}
    (h : lookup cache variant height deviceIdx hash = some e) :
    e ∈ cache ∧ e.variant = variant ∧ e.height = height ∧
      e.deviceIdx = deviceIdx ∧ e.hash = hash :=
  ⟨List.mem_of_find?_eq_some h, matchKey_eq_true_iff.mp (List.find?_some h)⟩

/-- Lookup misses exactly when no entry matches the key on all four
fields. -/
theorem lookup_none_iff {cache : List CacheEntry} {variant height deviceIdx : Nat}
    {hash : String} :
    lookup cache variant height deviceIdx hash = none ↔
      ∀ e ∈ cache, ¬(e.variant = variant ∧ e.height = height ∧
        e.deviceIdx = deviceIdx ∧ e.hash = hash) := by
  rw [lookup, List.find?_eq_none]
  constructor
  · intro H e he hf
    exact H e he (matchKey_eq_true_iff.mpr hf)
  · intro H e he hm
    exact H e he (matchKey_eq_true_iff.mp hm)

theorem klookup_nil (k : Key) : klookup k [] = none := rfl

theorem klookup_keyEntry (k : Key) (p : Nat) :
    klookup k [keyEntry k p] = some (keyEntry k p) := by
  simp [klookup, lookup, matchKey, keyEntry, List.find?]

theorem kstale_keyEntry_false {k : Key}
    (hH : k.height + PRECOMPILATION_DEPTH < U64) (p : Nat) :
    kstale k (keyEntry k p) = false := by
  simp [kstale, stalePred, keyEntry, Nat.mod_eq_of_lt hH]

/-!
### Lemmas about the substring search
-/

theorem findSub_some_isPrefixOf :
    ∀ {h : List Char} {n : List Char} {i : Nat},
      findSub n h = some i → n.isPrefixOf (h.drop i) = true := by
  intro h
  induction h with
  | nil =>
    intro n i hf
    by_cases hp : n.isPrefixOf ([] : List Char) = true
    · simp only [findSub, if_pos hp, Option.some.injEq] at hf
      subst hf
      simpa using hp
    · simp only [findSub, if_neg hp] at hf
      exact Option.noConfusion hf
  | cons c hs ih =>
    intro n i hf
    by_cases hp : n.isPrefixOf (c :: hs) = true
    · simp only [findSub, if_pos hp, Option.some.injEq] at hf
      subst hf
      simpa using hp
    · simp only [findSub, if_neg hp, Option.map_eq_some'] at hf
      obtain ⟨i', hi', rfl⟩ := hf
      simpa using ih hi'

theorem findSub_none :
    ∀ {h n : List Char}, findSub n h = none →
      ∀ i, n.isPrefixOf (h.drop i) = false := by
  intro h
  induction h with
  | nil =>
    intro n hf i
    by_cases hp : n.isPrefixOf ([] : List Char) = true
    · simp only [findSub, if_pos hp] at hf
      exact Option.noConfusion hf
    · rw [List.drop_nil]
      exact Bool.eq_false_iff.mpr hp
  | cons c hs ih =>
    intro n hf i
    by_cases hp : n.isPrefixOf (c :: hs) = true
    · simp only [findSub, if_pos hp] at hf
      exact Option.noConfusion hf
    · simp only [findSub, if_neg hp, Option.map_eq_none'] at hf
      match i with
      | 0 => exact Bool.eq_false_iff.mpr hp
      | i + 1 => simpa using ih hf i

theorem findSub_ne_none {n h : List Char} {i : Nat}
    (hp : n.isPrefixOf (h.drop i) = true) : findSub n h ≠ none := by
  intro hn
  rw [findSub_none hn i] at hp
  exact Bool.false_ne_true hp

theorem findSub_some_le :
    ∀ {h : List Char} {n : List Char} {i : Nat},
      findSub n h = some i → i ≤ h.length := by
  intro h
  induction h with
  | nil =>
    intro n i hf
    by_cases hp : n.isPrefixOf ([] : List Char) = true
    · simp only [findSub, if_pos hp, Option.some.injEq] at hf
      subst hf
      exact Nat.le_refl 0
    · simp only [findSub, if_neg hp] at hf
      exact Option.noConfusion hf
  | cons c hs ih =>
    intro n i hf
    by_cases hp : n.isPrefixOf (c :: hs) = true
    · simp only [findSub, if_pos hp, Option.some.injEq] at hf
      subst hf
      exact Nat.zero_le _
    · simp only [findSub, if_neg hp, Option.map_eq_some'] at hf
      obtain ⟨i', hi', rfl⟩ := hf
      simpa using ih hi'

/-!
### Invariant preservation for the concurrent build protocol
-/

theorem inLock_recheck : inLock .recheck := True.intro

theorem inLock_build : inLock .build := True.intro

theorem inLock_insert (p : Nat) : inLock (.insert p) := True.intro

theorem inv_init (n : Nat) (k : Key) (progOf : Nat → Nat) :
    Inv n k progOf (Init n) := by
  constructor
  · intro i h
    exact h.elim
  · exact Or.inl ⟨rfl, rfl, fun i =>
      ⟨fun r h => TState.noConfusion h, fun p h => TState.noConfusion h⟩⟩

/-- Every step of the protocol preserves the invariant, when the request
height cannot overflow the staleness sum and every external build call
succeeds. -/
theorem inv_step {n : Nat} {k : Key} {progOf : Nat → Nat} {buildOk : Nat → Bool}
    (hOk : ∀ b, buildOk b = true)
    (hH : k.height + PRECOMPILATION_DEPTH < U64) {s s' : Sys n}
    (hs : Inv n k progOf s) (hstep : Step n k progOf buildOk s s') :
    Inv n k progOf s' := by
  obtain ⟨hlock, hphase⟩ := hs
  cases hstep with
  | lookup1_hit i e hts hkl =>
    rcases hphase with ⟨hb, hc, hni⟩ | ⟨hb, hc, hex, hnd⟩ | ⟨hb, hc, hnb, hdv⟩
    · rw [hc, klookup_nil] at hkl
      exact Option.noConfusion hkl
    · rw [hc, klookup_nil] at hkl
      exact Option.noConfusion hkl
    · rw [hc, klookup_keyEntry] at hkl
      obtain rfl : keyEntry k (progOf 0) = e := Option.some.inj hkl
      refine ⟨?_, Or.inr (Or.inr ⟨hb, hc, ?_, ?_⟩)⟩
      · intro i' hl
        rcases eq_or_ne i' i with rfl | hii
        · simp only [Function.update_same] at hl
          exact hl.elim
        · simp only [Function.update_noteq hii] at hl
          exact hlock i' hl
      · intro i'
        rcases eq_or_ne i' i with rfl | hii
        · simp only [Function.update_same]
          exact ⟨fun h => TState.noConfusion h, fun p h => TState.noConfusion h⟩
        · simp only [Function.update_noteq hii]
          exact hnb i'
      · intro i' r hr
        rcases eq_or_ne i' i with rfl | hii
        · simp only [Function.update_same] at hr
          exact (TState.done.inj hr).symm
        · simp only [Function.update_noteq hii] at hr
          exact hdv i' r hr
  | lookup1_miss i hts hkl =>
    rcases hphase with ⟨hb, hc, hni⟩ | ⟨hb, hc, hex, hnd⟩ | ⟨hb, hc, hnb, hdv⟩
    · refine ⟨?_, Or.inl ⟨hb, hc, ?_⟩⟩
      · intro i' hl
        rcases eq_or_ne i' i with rfl | hii
        · simp only [Function.update_same] at hl
          exact hl.elim
        · simp only [Function.update_noteq hii] at hl
          exact hlock i' hl
      · intro i'
        rcases eq_or_ne i' i with rfl | hii
        · simp only [Function.update_same]
          exact ⟨fun r h => TState.noConfusion h, fun p h => TState.noConfusion h⟩
        · simp only [Function.update_noteq hii]
          exact hni i'
    · obtain ⟨j, hj⟩ := hex
      refine ⟨?_, Or.inr (Or.inl ⟨hb, hc, ⟨j, ?_⟩, ?_⟩)⟩
      · intro i' hl
        rcases eq_or_ne i' i with rfl | hii
        · simp only [Function.update_same] at hl
          exact hl.elim
        · simp only [Function.update_noteq hii] at hl
          exact hlock i' hl
      · have hji : j ≠ i := by
          intro hji
          rw [hji, hts] at hj
          exact TState.noConfusion hj
        simp only [Function.update_noteq hji]
        exact hj
      · intro i' r hr
        rcases eq_or_ne i' i with rfl | hii
        · simp only [Function.update_same] at hr
          exact TState.noConfusion hr
        · simp only [Function.update_noteq hii] at hr
          exact hnd i' r hr
    · rw [hc, klookup_keyEntry] at hkl
      exact Option.noConfusion hkl
  | evictStep i hts =>
    rcases hphase with ⟨hb, hc, hni⟩ | ⟨hb, hc, hex, hnd⟩ | ⟨hb, hc, hnb, hdv⟩
    · refine ⟨?_, Or.inl ⟨hb, ?_, ?_⟩⟩
      · intro i' hl
        rcases eq_or_ne i' i with rfl | hii
        · simp only [Function.update_same] at hl
          exact hl.elim
        · simp only [Function.update_noteq hii] at hl
          exact hlock i' hl
      · show (removeWhere (kstale k) s.cache).1 = []
        rw [hc, removeWhere_nil]
      · intro i'
        rcases eq_or_ne i' i with rfl | hii
        · simp only [Function.update_same]
          exact ⟨fun r h => TState.noConfusion h, fun p h => TState.noConfusion h⟩
        · simp only [Function.update_noteq hii]
          exact hni i'
    · obtain ⟨j, hj⟩ := hex
      refine ⟨?_, Or.inr (Or.inl ⟨hb, ?_, ⟨j, ?_⟩, ?_⟩)⟩
      · intro i' hl
        rcases eq_or_ne i' i with rfl | hii
        · simp only [Function.update_same] at hl
          exact hl.elim
        · simp only [Function.update_noteq hii] at hl
          exact hlock i' hl
      · show (removeWhere (kstale k) s.cache).1 = []
        rw [hc, removeWhere_nil]
      · have hji : j ≠ i := by
          intro hji
          rw [hji, hts] at hj
          exact TState.noConfusion hj
        simp only [Function.update_noteq hji]
        exact hj
      · intro i' r hr
        rcases eq_or_ne i' i with rfl | hii
        · simp only [Function.update_same] at hr
          exact TState.noConfusion hr
        · simp only [Function.update_noteq hii] at hr
          exact hnd i' r hr
    · refine ⟨?_, Or.inr (Or.inr ⟨hb, ?_, ?_, ?_⟩)⟩
      · intro i' hl
        rcases eq_or_ne i' i with rfl | hii
        · simp only [Function.update_same] at hl
          exact hl.elim
        · simp only [Function.update_noteq hii] at hl
          exact hlock i' hl
      · show (removeWhere (kstale k) s.cache).1 = [keyEntry k (progOf 0)]
        rw [hc, removeWhere_singleton_keep (kstale_keyEntry_false hH _)]
      · intro i'
        rcases eq_or_ne i' i with rfl | hii
        · simp only [Function.update_same]
          exact ⟨fun h => TState.noConfusion h, fun p h => TState.noConfusion h⟩
        · simp only [Function.update_noteq hii]
          exact hnb i'
      · intro i' r hr
        rcases eq_or_ne i' i with rfl | hii
        · simp only [Function.update_same] at hr
          exact TState.noConfusion hr
        · simp only [Function.update_noteq hii] at hr
          exact hdv i' r hr
  | acquireStep i hts howner =>
    rcases hphase with ⟨hb, hc, hni⟩ | ⟨hb, hc, hex, hnd⟩ | ⟨hb, hc, hnb, hdv⟩
    · refine ⟨?_, Or.inl ⟨hb, hc, ?_⟩⟩
      · intro i' hl
        rcases eq_or_ne i' i with rfl | hii
        · rfl
        · simp only [Function.update_noteq hii] at hl
          have := hlock i' hl
          rw [howner] at this
          exact Option.noConfusion this
      · intro i'
        rcases eq_or_ne i' i with rfl | hii
        · simp only [Function.update_same]
          exact ⟨fun r h => TState.noConfusion h, fun p h => TState.noConfusion h⟩
        · simp only [Function.update_noteq hii]
          exact hni i'
    · obtain ⟨j, hj⟩ := hex
      have := hlock j (by rw [hj]; exact inLock_insert _)
      rw [howner] at this
      exact Option.noConfusion this
    · refine ⟨?_, Or.inr (Or.inr ⟨hb, hc, ?_, ?_⟩)⟩
      · intro i' hl
        rcases eq_or_ne i' i with rfl | hii
        · rfl
        · simp only [Function.update_noteq hii] at hl
          have := hlock i' hl
          rw [howner] at this
          exact Option.noConfusion this
      · intro i'
        rcases eq_or_ne i' i with rfl | hii
        · simp only [Function.update_same]
          exact ⟨fun h => TState.noConfusion h, fun p h => TState.noConfusion h⟩
        · simp only [Function.update_noteq hii]
          exact hnb i'
      · intro i' r hr
        rcases eq_or_ne i' i with rfl | hii
        · simp only [Function.update_same] at hr
          exact TState.noConfusion hr
        · simp only [Function.update_noteq hii] at hr
          exact hdv i' r hr
  | recheck_hit i e hts howner hkl =>
    rcases hphase with ⟨hb, hc, hni⟩ | ⟨hb, hc, hex, hnd⟩ | ⟨hb, hc, hnb, hdv⟩
    · rw [hc, klookup_nil] at hkl
      exact Option.noConfusion hkl
    · obtain ⟨j, hj⟩ := hex
      have hji := hlock j (by rw [hj]; exact inLock_insert _)
      rw [howner] at hji
      obtain rfl : i = j := Option.some.inj hji
      rw [hts] at hj
      exact TState.noConfusion hj
    · rw [hc, klookup_keyEntry] at hkl
      obtain rfl : keyEntry k (progOf 0) = e := Option.some.inj hkl
      refine ⟨?_, Or.inr (Or.inr ⟨hb, hc, ?_, ?_⟩)⟩
      · intro i' hl
        rcases eq_or_ne i' i with rfl | hii
        · simp only [Function.update_same] at hl
          exact hl.elim
        · simp only [Function.update_noteq hii] at hl
          have h1 := hlock i' hl
          rw [howner] at h1
          exact absurd (Option.some.inj h1) (fun h => hii h.symm)
      · intro i'
        rcases eq_or_ne i' i with rfl | hii
        · simp only [Function.update_same]
          exact ⟨fun h => TState.noConfusion h, fun p h => TState.noConfusion h⟩
        · simp only [Function.update_noteq hii]
          exact hnb i'
      · intro i' r hr
        rcases eq_or_ne i' i with rfl | hii
        · simp only [Function.update_same] at hr
          exact (TState.done.inj hr).symm
        · simp only [Function.update_noteq hii] at hr
          exact hdv i' r hr
  | recheck_miss i hts howner hkl =>
    rcases hphase with ⟨hb, hc, hni⟩ | ⟨hb, hc, hex, hnd⟩ | ⟨hb, hc, hnb, hdv⟩
    · refine ⟨?_, Or.inl ⟨hb, hc, ?_⟩⟩
      · intro i' hl
        rcases eq_or_ne i' i with rfl | hii
        · exact howner
        · simp only [Function.update_noteq hii] at hl
          exact hlock i' hl
      · intro i'
        rcases eq_or_ne i' i with rfl | hii
        · simp only [Function.update_same]
          exact ⟨fun r h => TState.noConfusion h, fun p h => TState.noConfusion h⟩
        · simp only [Function.update_noteq hii]
          exact hni i'
    · obtain ⟨j, hj⟩ := hex
      have hji := hlock j (by rw [hj]; exact inLock_insert _)
      rw [howner] at hji
      obtain rfl : i = j := Option.some.inj hji
      rw [hts] at hj
      exact TState.noConfusion hj
    · rw [hc, klookup_keyEntry] at hkl
      exact Option.noConfusion hkl
  | buildFailStep i hts howner hguard =>
    rw [hOk s.builds] at hguard
    exact Bool.noConfusion hguard
  | buildStep i hts howner hguard =>
    rcases hphase with ⟨hb, hc, hni⟩ | ⟨hb, hc, hex, hnd⟩ | ⟨hb, hc, hnb, hdv⟩
    · refine ⟨?_, Or.inr (Or.inl ⟨by simp [hb], hc, ⟨i, ?_⟩, ?_⟩)⟩
      · intro i' hl
        rcases eq_or_ne i' i with rfl | hii
        · exact howner
        · simp only [Function.update_noteq hii] at hl
          exact hlock i' hl
      · simp only [Function.update_same, hb]
      · intro i' r hr
        rcases eq_or_ne i' i with rfl | hii
        · simp only [Function.update_same] at hr
          exact TState.noConfusion hr
        · simp only [Function.update_noteq hii] at hr
          exact (hni i').1 r hr
    · obtain ⟨j, hj⟩ := hex
      have hji := hlock j (by rw [hj]; exact inLock_insert _)
      rw [howner] at hji
      obtain rfl : i = j := Option.some.inj hji
      rw [hts] at hj
      exact TState.noConfusion hj
    · exact absurd hts (hnb i).1
  | insertStep i p hts howner =>
    rcases hphase with ⟨hb, hc, hni⟩ | ⟨hb, hc, hex, hnd⟩ | ⟨hb, hc, hnb, hdv⟩
    · exact absurd hts ((hni i).2 p)
    · obtain ⟨j, hj⟩ := hex
      have hji := hlock j (by rw [hj]; exact inLock_insert _)
      rw [howner] at hji
      obtain rfl : i = j := Option.some.inj hji
      obtain rfl : p = progOf 0 := TState.insert.inj (hts.symm.trans hj)
      refine ⟨?_, Or.inr (Or.inr ⟨hb, ?_, ?_, ?_⟩)⟩
      · intro i' hl
        rcases eq_or_ne i' i with rfl | hii
        · simp only [Function.update_same] at hl
          exact hl.elim
        · simp only [Function.update_noteq hii] at hl
          have h1 := hlock i' hl
          rw [howner] at h1
          exact absurd (Option.some.inj h1) (fun h => hii h.symm)
      · show s.cache ++ [keyEntry k (progOf 0)] = [keyEntry k (progOf 0)]
        rw [hc, List.nil_append]
      · intro i'
        rcases eq_or_ne i' i with rfl | hii
        · simp only [Function.update_same]
          exact ⟨fun h => TState.noConfusion h, fun q h => TState.noConfusion h⟩
        · simp only [Function.update_noteq hii]
          constructor
          · intro hbd
            have h1 := hlock i' (by rw [hbd]; exact inLock_build)
            rw [howner] at h1
            exact hii (Option.some.inj h1).symm
          · intro q hq
            have h1 := hlock i' (by rw [hq]; exact inLock_insert q)
            rw [howner] at h1
            exact hii (Option.some.inj h1).symm
      · intro i' r hr
        rcases eq_or_ne i' i with rfl | hii
        · simp only [Function.update_same] at hr
          exact (TState.done.inj hr).symm
        · simp only [Function.update_noteq hii] at hr
          exact absurd hr (hnd i' r)
    · exact absurd hts ((hnb i).2 p)

/-- The invariant holds in every reachable state of a run whose external
build calls all succeed. -/
theorem inv_reach {n : Nat} {k : Key} {progOf : Nat → Nat} {buildOk : Nat → Bool}
    (hOk : ∀ b, buildOk b = true)
    (hH : k.height + PRECOMPILATION_DEPTH < U64) {s : Sys n}
    (h : Relation.ReflTransGen (Step n k progOf buildOk) (Init n) s) :
    Inv n k progOf s := by
  induction h with
  | refl => exact inv_init n k progOf
  | tail hab hbc ih => exact inv_step hOk hH ih hbc

/-- The failing-build invariant holds initially. -/
theorem invFail_init (n : Nat) : InvFail n (Init n) := by
  refine ⟨fun i h => h.elim, rfl, fun i p h => TState.noConfusion h, ?_⟩
  intro i r h
  exact absurd h (fun h => TState.noConfusion h)

/-- Every step of a run whose external build calls all fail preserves the
failing-build invariant. -/
theorem invFail_step {n : Nat} {k : Key} {progOf : Nat → Nat} {buildOk : Nat → Bool}
    (hFail : ∀ b, buildOk b = false) {s s' : Sys n}
    (hs : InvFail n s) (hstep : Step n k progOf buildOk s s') :
    InvFail n s' := by
  obtain ⟨hlock, hc, hins, hdv⟩ := hs
  cases hstep with
  | lookup1_hit i e hts hkl =>
    rw [hc, klookup_nil] at hkl
    exact Option.noConfusion hkl
  | lookup1_miss i hts hkl =>
    refine ⟨?_, hc, ?_, ?_⟩
    · intro i' hl
      rcases eq_or_ne i' i with rfl | hii
      · simp only [Function.update_same] at hl
        exact hl.elim
      · simp only [Function.update_noteq hii] at hl
        exact hlock i' hl
    · intro i' p
      rcases eq_or_ne i' i with rfl | hii
      · simp only [Function.update_same]
        exact fun h => TState.noConfusion h
      · simp only [Function.update_noteq hii]
        exact hins i' p
    · intro i' r hr
      rcases eq_or_ne i' i with rfl | hii
      · simp only [Function.update_same] at hr
        exact TState.noConfusion hr
      · simp only [Function.update_noteq hii] at hr
        exact hdv i' r hr
  | evictStep i hts =>
    refine ⟨?_, ?_, ?_, ?_⟩
    · intro i' hl
      rcases eq_or_ne i' i with rfl | hii
      · simp only [Function.update_same] at hl
        exact hl.elim
      · simp only [Function.update_noteq hii] at hl
        exact hlock i' hl
    · show (removeWhere (kstale k) s.cache).1 = []
      rw [hc, removeWhere_nil]
    · intro i' p
      rcases eq_or_ne i' i with rfl | hii
      · simp only [Function.update_same]
        exact fun h => TState.noConfusion h
      · simp only [Function.update_noteq hii]
        exact hins i' p
    · intro i' r hr
      rcases eq_or_ne i' i with rfl | hii
      · simp only [Function.update_same] at hr
        exact TState.noConfusion hr
      · simp only [Function.update_noteq hii] at hr
        exact hdv i' r hr
  | acquireStep i hts howner =>
    refine ⟨?_, hc, ?_, ?_⟩
    · intro i' hl
      rcases eq_or_ne i' i with rfl | hii
      · rfl
      · simp only [Function.update_noteq hii] at hl
        have := hlock i' hl
        rw [howner] at this
        exact Option.noConfusion this
    · intro i' p
      rcases eq_or_ne i' i with rfl | hii
      · simp only [Function.update_same]
        exact fun h => TState.noConfusion h
      · simp only [Function.update_noteq hii]
        exact hins i' p
    · intro i' r hr
      rcases eq_or_ne i' i with rfl | hii
      · simp only [Function.update_same] at hr
        exact TState.noConfusion hr
      · simp only [Function.update_noteq hii] at hr
        exact hdv i' r hr
  | recheck_hit i e hts howner hkl =>
    rw [hc, klookup_nil] at hkl
    exact Option.noConfusion hkl
  | recheck_miss i hts howner hkl =>
    refine ⟨?_, hc, ?_, ?_⟩
    · intro i' hl
      rcases eq_or_ne i' i with rfl | hii
      · exact howner
      · simp only [Function.update_noteq hii] at hl
        exact hlock i' hl
    · intro i' p
      rcases eq_or_ne i' i with rfl | hii
      · simp only [Function.update_same]
        exact fun h => TState.noConfusion h
      · simp only [Function.update_noteq hii]
        exact hins i' p
    · intro i' r hr
      rcases eq_or_ne i' i with rfl | hii
      · simp only [Function.update_same] at hr
        exact TState.noConfusion hr
      · simp only [Function.update_noteq hii] at hr
        exact hdv i' r hr
  | buildStep i hts howner hguard =>
    rw [hFail s.builds] at hguard
    exact Bool.noConfusion hguard
  | buildFailStep i hts howner hguard =>
    refine ⟨?_, hc, ?_, ?_⟩
    · intro i' hl
      rcases eq_or_ne i' i with rfl | hii
      · simp only [Function.update_same] at hl
        exact hl.elim
      · simp only [Function.update_noteq hii] at hl
        have h1 := hlock i' hl
        rw [howner] at h1
        exact absurd (Option.some.inj h1) (fun h => hii h.symm)
    · intro i' p
      rcases eq_or_ne i' i with rfl | hii
      · simp only [Function.update_same]
        exact fun h => TState.noConfusion h
      · simp only [Function.update_noteq hii]
        exact hins i' p
    · intro i' r hr
      rcases eq_or_ne i' i with rfl | hii
      · simp only [Function.update_same] at hr
        exact (TState.done.inj hr).symm
      · simp only [Function.update_noteq hii] at hr
        exact hdv i' r hr
  | insertStep i p hts howner =>
    exact absurd hts (hins i p)

/-- The failing-build invariant holds in every reachable state of a run
whose external build calls all fail. -/
theorem invFail_reach {n : Nat} {k : Key} {progOf : Nat → Nat} {buildOk : Nat → Bool}
    (hFail : ∀ b, buildOk b = false) {s : Sys n}
    (h : Relation.ReflTransGen (Step n k progOf buildOk) (Init n) s) :
    InvFail n s := by
  induction h with
  | refl => exact invFail_init n
  | tail hab hbc ih => exact invFail_step hFail ih hbc

/-!
### Lemmas about the build phase and the public entry point
-/

theorem buildPhase_no_releaseKernel (env : OclEnv) (ctx : GpuContext)
    (variant height : Nat) (source options hash : String)
    (cache1 : List CacheEntry) (k' : Nat) :
    Event.releaseKernel k' ∉
      (buildPhase env ctx variant height source options hash cache1).events := by
  simp only [buildPhase]
  split_ifs <;> simp

theorem buildPhase_createProgram_source {env : OclEnv} {ctx : GpuContext}
    {variant height : Nat} {source options hash : String}
    {cache1 : List CacheEntry} {s : String}
    (h : Event.createProgram s ∈
      (buildPhase env ctx variant height source options hash cache1).events) :
    s = source := by
  simp only [buildPhase] at h
  split_ifs at h <;> simp at h <;> exact h

theorem buildPhase_no_cacheInsert {env : OclEnv} {ctx : GpuContext}
    {variant height : Nat} {source options hash : String}
    {cache1 : List CacheEntry} (e : CacheEntry)
    (hfail : env.createRet ≠ CL_SUCCESS ∨ env.buildRet ≠ CL_SUCCESS ∨
      env.waitRet ≠ CL_SUCCESS) :
    Event.cacheInsert e ∉
      (buildPhase env ctx variant height source options hash cache1).events := by
  simp only [buildPhase]
  split_ifs with h1 h2 h3 <;> simp
  rcases hfail with h | h | h
  · exact absurd h h1
  · exact absurd h h2
  · exact absurd h h3

/-- A positive result of `CryptonightR_build_program` is the program of an
entry present in the result cache and matching the request key. -/
theorem build_program_program_some {env : OclEnv} {ctx : GpuContext}
    {variant height : Nat} {old_kernel : Option Nat}
    {source options hash : String} {cache : List CacheEntry} {p : Nat}
    (h : (CryptonightR_build_program env ctx variant height old_kernel
        source options hash cache).program = some p) :
    ∃ e ∈ (CryptonightR_build_program env ctx variant height old_kernel
        source options hash cache).cache,
      e.program = p ∧ e.variant = variant ∧ e.height = height ∧
        e.deviceIdx = ctx.deviceIdx ∧ e.hash = hash := by
  simp only [CryptonightR_build_program] at h ⊢
  cases hl : lookup (removeWhere (stalePred variant height) cache).1 variant height
      ctx.deviceIdx hash with
  | some e =>
    simp only [hl] at h ⊢
    obtain ⟨hmem, h1, h2, h3, h4⟩ := lookup_some hl
    exact ⟨e, hmem, Option.some.inj h, h1, h2, h3, h4⟩
  | none =>
    simp only [hl] at h ⊢
    by_cases h1 : env.createRet ≠ CL_SUCCESS
    · simp only [buildPhase, if_pos h1] at h
      exact Option.noConfusion h
    · by_cases h2 : env.buildRet ≠ CL_SUCCESS
      · simp only [buildPhase, if_neg h1, if_pos h2] at h
        exact Option.noConfusion h
      · by_cases h3 : env.waitRet ≠ CL_SUCCESS
        · simp only [buildPhase, if_neg h1, if_neg h2, if_pos h3] at h
          exact Option.noConfusion h
        · simp only [buildPhase, if_neg h1, if_neg h2, if_neg h3] at h ⊢
          refine ⟨⟨variant, height, ctx.deviceIdx, hash, env.createdProgram⟩,
            List.mem_append_right _ (List.mem_singleton.mpr rfl), ?_, rfl, rfl, rfl, rfl⟩
          exact Option.some.inj h

/-- Every `createProgram` event a synchronous `CryptonightR_get_program`
call emits carries the spliced source. -/
theorem get_program_createProgram_source {env : OclEnv} {ctx : GpuContext}
    {variant height : Nat} {old_kernel : Option Nat} {cache : List CacheEntry}
    {off : Nat} {s : String}
    (hstr : strstr env.template INCLUDE_NAME = some off)
    (hs : Event.createProgram s ∈
      (CryptonightR_get_program env ctx variant height false old_kernel cache).events) :
    s = spliceAt env.template (get_code (env.randomMath variant height)) off := by
  simp only [CryptonightR_get_program, hstr, Bool.false_eq_true, if_false] at hs
  by_cases hv : variant = VARIANT_WOW ∨ variant = VARIANT_4
  · simp only [if_pos hv] at hs
    cases hdev : deviceStringOf env ctx with
    | none => simp [hdev] at hs
    | some dev =>
      simp only [hdev] at hs
      cases hlk : lookup cache variant height ctx.deviceIdx
          (env.calcHash dev
            (spliceAt env.template (get_code (env.randomMath variant height)) off)
            (assembledOptions env variant)) with
      | some e => simp [hlk] at hs
      | none =>
        simp only [hlk, CryptonightR_build_program] at hs
        cases hl2 : lookup (removeWhere (stalePred variant height) cache).1 variant height
            ctx.deviceIdx
            (env.calcHash dev
              (spliceAt env.template (get_code (env.randomMath variant height)) off)
              (assembledOptions env variant)) with
        | some e' =>
          simp only [hl2] at hs
          rcases old_kernel with _ | kk <;>
            simp [List.mem_append, List.mem_map] at hs
        | none =>
          simp only [hl2, List.mem_append] at hs
          rcases hs with (hs | hs) | hs
          · rcases old_kernel with _ | kk <;> simp at hs
          · simp [List.mem_map] at hs
          · exact buildPhase_createProgram_source hs
  · simp only [if_neg hv] at hs
    simp at hs

/-!
## Claim theorems
-/

/-- Claim C1 (code evidence for the divergence): on a cache holding one
entry for device 0 whose program handle is 7, `CryptonightR_release` for a
device-0 context with outstanding handle 5 removes the entry from the cache
but releases only handle 5 — no `releaseProgram 7` call is ever made, so the
removed entry's program handle is not released (it leaks), contradicting the
claim that every handle removed from the cache is released exactly once. -/
theorem C1_device_release_leak :
    entryC.deviceIdx = ctxC.deviceIdx ∧ entryC.program = 7 ∧ entryC ∈ cacheC ∧
    (CryptonightR_release ctxC cacheC).1 = [] ∧
    (CryptonightR_release ctxC cacheC).2 = [Event.releaseProgram 5] ∧
    Event.releaseProgram 7 ∉ (CryptonightR_release ctxC cacheC).2 := by
  decide

/-- Claim C2 (amended): in every `CryptonightR_build_program` call with a
non-null outgoing kernel handle, that handle is released first — before the
stale eviction, the in-lock re-check and any build work — and exactly once;
this holds whether the request is served by the in-lock cache re-check or by
a fresh build.  (As stated over `CryptonightR_get_program` the claim fails:
when the first, pre-lock cache lookup hits, the outgoing handle is not
released at all — see the counterexample.) -/
theorem C2_build_releases_old_kernel (env : OclEnv) (ctx : GpuContext)
    (variant height k : Nat) (source options hash : String)
    (cache : List CacheEntry) :
    ∃ rest,
      (CryptonightR_build_program env ctx variant height (some k)
          source options hash cache).events = Event.releaseKernel k :: rest
      ∧ ∀ k', Event.releaseKernel k' ∉ rest := by
  simp only [CryptonightR_build_program]
  cases hl : lookup (removeWhere (stalePred variant height) cache).1 variant height
      ctx.deviceIdx hash with
  | some e =>
    refine ⟨(removeWhere (stalePred variant height) cache).2.map
        (fun x => Event.releaseProgram x.program), by simp, ?_⟩
    intro k' hk'
    simp [List.mem_map] at hk'
  | none =>
    refine ⟨(removeWhere (stalePred variant height) cache).2.map
        (fun x => Event.releaseProgram x.program) ++
        (buildPhase env ctx variant height source options hash
          (removeWhere (stalePred variant height) cache).1).events, by simp, ?_⟩
    intro k' hk'
    rcases List.mem_append.mp hk' with hk' | hk'
    · simp [List.mem_map] at hk'
    · exact buildPhase_no_releaseKernel env ctx variant height source options hash _ k' hk'

/-- Claim C2 counterexample: a synchronous `CryptonightR_get_program` call
supplied with the non-null outgoing kernel handle 3 whose first cache lookup
hits returns the cached program without emitting any `releaseKernel` event,
so the supplied handle is not released before anything — refuting the claim
as stated for calls served from the first cache lookup. -/
theorem C2_first_hit_no_release :
    (CryptonightR_get_program envC ctxC VARIANT_WOW 100 false (some 3) cacheC).program
      = some 7
  ∧ Event.releaseKernel 3 ∉
      (CryptonightR_get_program envC ctxC VARIANT_WOW 100 false (some 3) cacheC).events := by
  decide

/-- Claim C3: cache lookup equality requires all four key fields — variant,
height, device index and fingerprint hash — to match exactly (a hit matches
on all four; a miss means no entry matches on all four), and when the
in-lock re-check of `CryptonightR_build_program` finds a matching entry the
function returns that entry's program handle with no call into the external
build service (no program creation, build, or wait-for-build event). -/
theorem C3_lookup_key (cache : List CacheEntry) (variant height deviceIdx : Nat)
    (hash : String) :
    (∀ e, lookup cache variant height deviceIdx hash = some e →
        e ∈ cache ∧ e.variant = variant ∧ e.height = height ∧
          e.deviceIdx = deviceIdx ∧ e.hash = hash)
  ∧ (lookup cache variant height deviceIdx hash = none ↔
        ∀ e ∈ cache, ¬(e.variant = variant ∧ e.height = height ∧
          e.deviceIdx = deviceIdx ∧ e.hash = hash))
  ∧ (∀ env ctx old_kernel source options e,
        lookup (removeWhere (stalePred variant height) cache).1 variant height
          ctx.deviceIdx hash = some e →
        (CryptonightR_build_program env ctx variant height old_kernel
            source options hash cache).program = some e.program
      ∧ (CryptonightR_build_program env ctx variant height old_kernel
            source options hash cache).events.filter Event.isBuildServiceCall = []) := by
  refine ⟨fun e h => lookup_some h, lookup_none_iff, ?_⟩
  intro env ctx old_kernel source options e hl
  simp only [CryptonightR_build_program, hl]
  refine ⟨by trivial, ?_⟩
  rw [List.filter_eq_nil_iff]
  intro x hx
  rw [List.mem_append] at hx
  rcases hx with hx | hx
  · rcases old_kernel with _ | kk <;> simp at hx
    simp [hx, Event.isBuildServiceCall]
  · rw [List.mem_map] at hx
    obtain ⟨y, hy, rfl⟩ := hx
    simp [Event.isBuildServiceCall]

/-- Claim C3 witness: the concrete entry `entryC` is looked up by its four
key fields, and the in-lock re-check hit makes `CryptonightR_build_program`
return its handle with no external build-service call. -/
theorem C3_witness :
    (entryC ∈ cacheC ∧ entryC.variant = VARIANT_WOW ∧ entryC.height = 100 ∧
      entryC.deviceIdx = 0 ∧ entryC.hash = "H")
  ∧ ((CryptonightR_build_program envC ctxC VARIANT_WOW 100 none "s" "o" "H"
        cacheC).program = some entryC.program
    ∧ (CryptonightR_build_program envC ctxC VARIANT_WOW 100 none "s" "o" "H"
        cacheC).events.filter Event.isBuildServiceCall = []) :=
  ⟨(C3_lookup_key cacheC VARIANT_WOW 100 0 "H").1 entryC (by decide),
   (C3_lookup_key cacheC VARIANT_WOW 100 0 "H").2.2 envC ctxC none "s" "o" entryC
     (by decide)⟩

/-- Claim C4: provided no entry's `height + PRECOMPILATION_DEPTH` overflows
64 bits, the stale-eviction scan removes exactly the entries whose variant
equals the requested variant and whose height plus `PRECOMPILATION_DEPTH` is
strictly below the requested height (entries of other variants and entries
inside the depth window survive, up to the order changes of swap-removal),
and `CryptonightR_build_program` emits a `releaseProgram` call for every
removed entry's program after the eviction scan (i.e. outside the cache
lock). -/
theorem C4_stale_eviction (variant height : Nat) (cache : List CacheEntry)
    (hof : ∀ e ∈ cache, e.height + PRECOMPILATION_DEPTH < U64) :
    List.Perm (removeWhere (stalePred variant height) cache).1
      (cache.filter fun e =>
        !decide (e.variant = variant ∧ e.height + PRECOMPILATION_DEPTH < height))
  ∧ List.Perm (removeWhere (stalePred variant height) cache).2
      (cache.filter fun e =>
        decide (e.variant = variant ∧ e.height + PRECOMPILATION_DEPTH < height))
  ∧ (∀ env ctx old_kernel source options hash,
      ∀ e ∈ (removeWhere (stalePred variant height) cache).2,
        Event.releaseProgram e.program ∈
          (CryptonightR_build_program env ctx variant height old_kernel
            source options hash cache).events) := by
  have hpt : ∀ e ∈ cache, stalePred variant height e
      = decide (e.variant = variant ∧ e.height + PRECOMPILATION_DEPTH < height) := by
    intro e he
    have hm := Nat.mod_eq_of_lt (hof e he)
    by_cases h1 : e.variant = variant <;>
      by_cases h2 : e.height + PRECOMPILATION_DEPTH < height <;>
        simp [stalePred, hm, h1, h2]
  refine ⟨?_, ?_, ?_⟩
  · refine (removeWhere_fst_perm _ cache).trans ?_
    rw [List.filter_congr (fun e he => by rw [hpt e he])]
  · refine (removeWhere_snd_perm _ cache).trans ?_
    rw [List.filter_congr hpt]
  · intro env ctx old_kernel source options hash e he
    have hmem : Event.releaseProgram e.program ∈
        (removeWhere (stalePred variant height) cache).2.map
          (fun x => Event.releaseProgram x.program) :=
      List.mem_map_of_mem _ he
    simp only [CryptonightR_build_program]
    cases hl : lookup (removeWhere (stalePred variant height) cache).1 variant height
        ctx.deviceIdx hash with
    | some e' => exact List.mem_append_right _ hmem
    | none => exact List.mem_append_left _ (List.mem_append_right _ hmem)

/-- Claim C4 witness: on a concrete cache with one fresh entry of the
requested variant, one stale entry of the requested variant (program 8) and
one old entry of a different variant, the scan keeps exactly the non-stale
and other-variant entries and the build path releases program 8. -/
theorem C4_witness :
    List.Perm (removeWhere (stalePred VARIANT_WOW 100) cacheC4).1
      (cacheC4.filter fun e =>
        !decide (e.variant = VARIANT_WOW ∧ e.height + PRECOMPILATION_DEPTH < 100))
  ∧ Event.releaseProgram 8 ∈
      (CryptonightR_build_program envC ctxC VARIANT_WOW 100 none "s" "o" "H"
        cacheC4).events :=
  ⟨(C4_stale_eviction VARIANT_WOW 100 cacheC4 (by decide)).1,
   (C4_stale_eviction VARIANT_WOW 100 cacheC4 (by decide)).2.2 envC ctxC none "s" "o" "H"
     ⟨VARIANT_WOW, 90, 0, "G", 8⟩ (by decide)⟩

/-- Claim C5: when the external build fails at program creation, build, or
wait-for-build (and the in-lock re-check missed, so the build is actually
attempted), `CryptonightR_build_program` returns null, logs the external
error code at the failing stage, releases the partially-created program when
one was created, and leaves the cache exactly as the eviction step left it —
in particular no cache-insert happens, so the failed build is never
cached. -/
theorem C5_build_failure (env : OclEnv) (ctx : GpuContext) (variant height : Nat)
    (old_kernel : Option Nat) (source options hash : String) (cache : List CacheEntry)
    (hmiss : lookup (removeWhere (stalePred variant height) cache).1 variant height
      ctx.deviceIdx hash = none)
    (hfail : env.createRet ≠ CL_SUCCESS ∨ env.buildRet ≠ CL_SUCCESS ∨
      env.waitRet ≠ CL_SUCCESS) :
    (CryptonightR_build_program env ctx variant height old_kernel
        source options hash cache).program = none
  ∧ (CryptonightR_build_program env ctx variant height old_kernel
        source options hash cache).cache
      = (removeWhere (stalePred variant height) cache).1
  ∧ (∀ e, Event.cacheInsert e ∉ (CryptonightR_build_program env ctx variant height
        old_kernel source options hash cache).events)
  ∧ (env.createRet ≠ CL_SUCCESS →
      Event.logErr msgCreate env.createRet ∈ (CryptonightR_build_program env ctx
        variant height old_kernel source options hash cache).events)
  ∧ (env.createRet = CL_SUCCESS → env.buildRet ≠ CL_SUCCESS →
      Event.logErr msgBuild env.buildRet ∈ (CryptonightR_build_program env ctx
        variant height old_kernel source options hash cache).events
    ∧ Event.releaseProgram env.createdProgram ∈ (CryptonightR_build_program env ctx
        variant height old_kernel source options hash cache).events)
  ∧ (env.createRet = CL_SUCCESS → env.buildRet = CL_SUCCESS →
      env.waitRet ≠ CL_SUCCESS →
      Event.logErr msgWait env.waitRet ∈ (CryptonightR_build_program env ctx
        variant height old_kernel source options hash cache).events
    ∧ Event.releaseProgram env.createdProgram ∈ (CryptonightR_build_program env ctx
        variant height old_kernel source options hash cache).events) := by
  have hnoins : ∀ e, Event.cacheInsert e ∉ (CryptonightR_build_program env ctx
      variant height old_kernel source options hash cache).events := by
    intro e he
    simp only [CryptonightR_build_program, hmiss, List.mem_append] at he
    rcases he with (he | he) | he
    · rcases old_kernel with _ | kk <;> simp at he
    · rw [List.mem_map] at he
      obtain ⟨y, hy, heq⟩ := he
      exact Event.noConfusion heq
    · exact buildPhase_no_cacheInsert e hfail he
  have hbp : ∀ ev, ev ∈ (buildPhase env ctx variant height source options hash
        (removeWhere (stalePred variant height) cache).1).events →
      ev ∈ (CryptonightR_build_program env ctx variant height old_kernel
        source options hash cache).events := by
    intro ev hev
    simp only [CryptonightR_build_program, hmiss]
    exact List.mem_append_right _ hev
  refine ⟨?_, ?_, hnoins, ?_, ?_, ?_⟩
  · simp only [CryptonightR_build_program, hmiss]
    rcases hfail with h | h | h
    · simp [buildPhase, if_pos h]
    · by_cases h1 : env.createRet ≠ CL_SUCCESS
      · simp [buildPhase, if_pos h1]
      · simp [buildPhase, if_neg h1, if_pos h]
    · by_cases h1 : env.createRet ≠ CL_SUCCESS
      · simp [buildPhase, if_pos h1]
      · by_cases h2 : env.buildRet ≠ CL_SUCCESS
        · simp [buildPhase, if_neg h1, if_pos h2]
        · simp [buildPhase, if_neg h1, if_neg h2, if_pos h]
  · simp only [CryptonightR_build_program, hmiss]
    rcases hfail with h | h | h
    · simp [buildPhase, if_pos h]
    · by_cases h1 : env.createRet ≠ CL_SUCCESS
      · simp [buildPhase, if_pos h1]
      · simp [buildPhase, if_neg h1, if_pos h]
    · by_cases h1 : env.createRet ≠ CL_SUCCESS
      · simp [buildPhase, if_pos h1]
      · by_cases h2 : env.buildRet ≠ CL_SUCCESS
        · simp [buildPhase, if_neg h1, if_pos h2]
        · simp [buildPhase, if_neg h1, if_neg h2, if_pos h]
  · intro h1
    apply hbp
    simp [buildPhase, if_pos h1]
  · intro h1 h2
    have h1' : ¬ env.createRet ≠ CL_SUCCESS := fun hx => hx h1
    constructor
    · apply hbp
      simp [buildPhase, if_neg h1', if_pos h2]
    · apply hbp
      simp [buildPhase, if_neg h1', if_pos h2]
  · intro h1 h2 h3
    have h1' : ¬ env.createRet ≠ CL_SUCCESS := fun hx => hx h1
    have h2' : ¬ env.buildRet ≠ CL_SUCCESS := fun hx => hx h2
    constructor
    · apply hbp
      simp [buildPhase, if_neg h1', if_neg h2', if_pos h3]
    · apply hbp
      simp [buildPhase, if_neg h1', if_neg h2', if_pos h3]

/-- Claim C5 witness: with a failing `clBuildProgram` (code -11) on an empty
cache, the build path returns null, and logs/releases as claimed. -/
theorem C5_witness :
    (CryptonightR_build_program envFailC ctxC VARIANT_WOW 100 none "s" "o" "H"
        []).program = none
  ∧ (Event.logErr msgBuild envFailC.buildRet ∈
      (CryptonightR_build_program envFailC ctxC VARIANT_WOW 100 none "s" "o" "H"
        []).events
    ∧ Event.releaseProgram envFailC.createdProgram ∈
      (CryptonightR_build_program envFailC ctxC VARIANT_WOW 100 none "s" "o" "H"
        []).events) :=
  ⟨(C5_build_failure envFailC ctxC VARIANT_WOW 100 none "s" "o" "H" []
      (by decide) (Or.inr (Or.inl (by decide)))).1,
   (C5_build_failure envFailC ctxC VARIANT_WOW 100 none "s" "o" "H" []
      (by decide) (Or.inr (Or.inl (by decide)))).2.2.2.2.1 rfl (by decide)⟩

/-- Claim C6: the translator maps each instruction to one statement as
specified — multiply to `r<dst>*=r<src>;`, add to `r<dst>+=r<src>+<C>U;`
with the constant rendered as an unsigned literal, subtract to
`r<dst>-=r<src>;`, rotate-left to `r<dst>=rotate(r<dst>,r<src>);`,
rotate-right to `r<dst>=rotate(r<dst>,ROT_BITS-r<src>);`, xor to
`r<dst>^=r<src>;` — each statement terminated by `;` and followed by a
newline, the whole output being the in-order concatenation of the
per-instruction text; an instruction with an opcode outside the six handled
ones contributes no statement, only the bare line separator. -/
theorem C6_translation (code : List V4_Instruction) (inst : V4_Instruction) :
    (get_code [] = "" ∧ get_code (inst :: code) = instLine inst ++ get_code code)
  ∧ (inst.opcode = MUL → instLine inst =
      "r" ++ toString inst.dst_index ++ "*=r" ++ toString inst.src_index ++ ";" ++ "\n")
  ∧ (inst.opcode = ADD → instLine inst =
      "r" ++ toString inst.dst_index ++ "+=r" ++ toString inst.src_index ++ "+" ++
        toString inst.C ++ "U;" ++ "\n")
  ∧ (inst.opcode = SUB → instLine inst =
      "r" ++ toString inst.dst_index ++ "-=r" ++ toString inst.src_index ++ ";" ++ "\n")
  ∧ (inst.opcode = ROL → instLine inst =
      "r" ++ toString inst.dst_index ++ "=rotate(r" ++ toString inst.dst_index ++
        ",r" ++ toString inst.src_index ++ ");" ++ "\n")
  ∧ (inst.opcode = ROR → instLine inst =
      "r" ++ toString inst.dst_index ++ "=rotate(r" ++ toString inst.dst_index ++
        ",ROT_BITS-r" ++ toString inst.src_index ++ ");" ++ "\n")
  ∧ (inst.opcode = XOR → instLine inst =
      "r" ++ toString inst.dst_index ++ "^=r" ++ toString inst.src_index ++ ";" ++ "\n")
  ∧ (inst.opcode ∉ [MUL, ADD, SUB, ROR, ROL, XOR] → instLine inst = "\n") := by
  refine ⟨⟨rfl, rfl⟩, ?_, ?_, ?_, ?_, ?_, ?_, ?_⟩
  · intro h
    simp [instLine, h, MUL, ADD, SUB, ROR, ROL, XOR]
  · intro h
    simp [instLine, h, MUL, ADD, SUB, ROR, ROL, XOR]
  · intro h
    simp [instLine, h, MUL, ADD, SUB, ROR, ROL, XOR]
  · intro h
    simp [instLine, h, MUL, ADD, SUB, ROR, ROL, XOR]
  · intro h
    simp [instLine, h, MUL, ADD, SUB, ROR, ROL, XOR]
  · intro h
    simp [instLine, h, MUL, ADD, SUB, ROR, ROL, XOR]
  · intro h
    simp only [List.mem_cons, List.not_mem_nil, or_false, not_or] at h
    obtain ⟨h1, h2, h3, h4, h5, h6⟩ := h
    simp [instLine, h1, h2, h3, h4, h5, h6]

/-- Claim C6 witness: a concrete multiply instruction with destination 1 and
source 2 renders as claimed. -/
theorem C6_witness :
    instLine ⟨0, 1, 2, 5⟩ =
      "r" ++ toString (1 : Nat) ++ "*=r" ++ toString (2 : Nat) ++ ";" ++ "\n" :=
  (C6_translation [] ⟨0, 1, 2, 5⟩).2.1 rfl

/-- Claim C7: if the kernel template decomposes as `b ++ marker ++ a` around
its unique marker occurrence, the marker search finds exactly that position
and the assembled source equals the template text before the marker,
followed by the translated fragment, followed by the template text after the
marker (so every program the request creates is built from exactly that
source); if no position of the template carries the marker,
`CryptonightR_get_program` returns null with only the marker-missing log
event — no build, no cache change. -/
theorem C7_marker_splice (env : OclEnv) (ctx : GpuContext) (variant height : Nat)
    (old_kernel : Option Nat) (cache : List CacheEntry) (b a : String) :
    ((env.template.data = b.data ++ INCLUDE_NAME.data ++ a.data) →
     (∀ i ≤ env.template.data.length,
        INCLUDE_NAME.data.isPrefixOf (env.template.data.drop i) = true →
          i = b.data.length) →
       strstr env.template INCLUDE_NAME = some b.data.length
     ∧ (∀ frag : String, spliceAt env.template frag b.data.length = b ++ frag ++ a)
     ∧ (∀ s, Event.createProgram s ∈
          (CryptonightR_get_program env ctx variant height false old_kernel
            cache).events →
          s = b ++ get_code (env.randomMath variant height) ++ a))
  ∧ ((∀ i, INCLUDE_NAME.data.isPrefixOf (env.template.data.drop i) = false) →
       CryptonightR_get_program env ctx variant height false old_kernel cache
         = ⟨none, cache, [Event.logErr msgMarker (Int.ofNat variant)]⟩) := by
  constructor
  · intro hdec huniq
    have hocc : INCLUDE_NAME.data.isPrefixOf
        (env.template.data.drop b.data.length) = true := by
      rw [hdec, List.append_assoc, List.drop_left]
      exact List.isPrefixOf_iff_prefix.mpr (List.prefix_append _ _)
    have hsome : strstr env.template INCLUDE_NAME = some b.data.length := by
      cases hf : findSub INCLUDE_NAME.data env.template.data with
      | none => exact absurd hf (findSub_ne_none hocc)
      | some i =>
        rw [strstr, hf,
          huniq i (findSub_some_le hf) (findSub_some_isPrefixOf hf)]
    have hsplice : ∀ frag : String,
        spliceAt env.template frag b.data.length = b ++ frag ++ a := by
      intro frag
      apply String.ext
      show env.template.data.take b.data.length ++ frag.data ++
          env.template.data.drop (b.data.length + INCLUDE_NAME.length)
        = (b ++ frag ++ a).data
      rw [String.data_append, String.data_append]
      have htake : env.template.data.take b.data.length = b.data := by
        rw [hdec, List.append_assoc, List.take_left]
      have hdrop : env.template.data.drop (b.data.length + INCLUDE_NAME.length)
          = a.data := by
        have hlen : INCLUDE_NAME.length = INCLUDE_NAME.data.length := rfl
        rw [hlen, ← List.drop_drop, hdec, List.append_assoc, List.drop_left,
          List.drop_left]
      rw [htake, hdrop, List.append_assoc]
    exact ⟨hsome, hsplice, fun s hs => by
      rw [get_program_createProgram_source hsome hs, hsplice]⟩
  · intro habs
    have hnone : strstr env.template INCLUDE_NAME = none := by
      cases hf : findSub INCLUDE_NAME.data env.template.data with
      | none => exact hf
      | some i =>
        have := findSub_some_isPrefixOf hf
        rw [habs i] at this
        exact absurd this (by simp)
    simp [CryptonightR_get_program, hnone]

/-- Claim C7 witness: for the concrete template `"A" ++ marker ++ "B"` the
search returns offset 1 and splicing a fragment yields
`"A" ++ fragment ++ "B"`. -/
theorem C7_witness :
    strstr envC7.template INCLUDE_NAME = some ("A" : String).data.length
  ∧ spliceAt envC7.template "FRAG" ("A" : String).data.length
      = "A" ++ "FRAG" ++ "B" :=
  have h := (C7_marker_splice envC7 ctxC VARIANT_WOW 100 none cacheC "A" "B").1
    (by decide) (by decide)
  ⟨h.1, h.2.1 "FRAG"⟩

/-- Claim C9: when the first, pre-lock cache lookup of a synchronous
`CryptonightR_get_program` call finds a matching entry, the call returns
exactly that entry's program with the cache unchanged and an empty event
list — no insertion, no stale or device eviction, no external build-service
call, and no release of the supplied outgoing kernel handle. -/
theorem C9_first_hit_frame (env : OclEnv) (ctx : GpuContext) (variant height : Nat)
    (old_kernel : Option Nat) (cache : List CacheEntry) (off : Nat) (dev : String)
    (e : CacheEntry)
    (hstr : strstr env.template INCLUDE_NAME = some off)
    (hv : variant = VARIANT_WOW ∨ variant = VARIANT_4)
    (hdev : deviceStringOf env ctx = some dev)
    (hhit : lookup cache variant height ctx.deviceIdx
        (env.calcHash dev
          (spliceAt env.template (get_code (env.randomMath variant height)) off)
          (assembledOptions env variant)) = some e) :
    CryptonightR_get_program env ctx variant height false old_kernel cache
      = ⟨some e.program, cache, []⟩ := by
  simp [CryptonightR_get_program, hstr, if_pos hv, hdev, hhit]

/-- Claim C9 witness: the concrete first-lookup hit returns the cached
handle 7 with the cache untouched and no external calls, even though an
outgoing kernel handle was supplied. -/
theorem C9_witness :
    CryptonightR_get_program envC ctxC VARIANT_WOW 100 false (some 3) cacheC
      = ⟨some entryC.program, cacheC, []⟩ :=
  C9_first_hit_frame envC ctxC VARIANT_WOW 100 (some 3) cacheC 0 "dev" entryC
    (by decide) (Or.inl rfl) (by decide) (by decide)

/-- Claim C10: whenever a synchronous `CryptonightR_get_program` call
returns a non-null program handle, the returned handle is the program of an
entry present in the cache at return whose variant, height and device index
equal the request's, and whose fingerprint equals the fingerprint the
request computed (`requestHash`). -/
theorem C10_result_from_cache (env : OclEnv) (ctx : GpuContext)
    (variant height : Nat) (old_kernel : Option Nat) (cache : List CacheEntry)
    (p : Nat)
    (h : (CryptonightR_get_program env ctx variant height false old_kernel
        cache).program = some p) :
    ∃ e ∈ (CryptonightR_get_program env ctx variant height false old_kernel
        cache).cache,
      e.program = p ∧ e.variant = variant ∧ e.height = height ∧
        e.deviceIdx = ctx.deviceIdx ∧
        requestHash env ctx variant height = some e.hash := by
  cases hstr : strstr env.template INCLUDE_NAME with
  | none => simp [CryptonightR_get_program, hstr] at h
  | some off =>
    by_cases hv : variant = VARIANT_WOW ∨ variant = VARIANT_4
    · cases hdev : deviceStringOf env ctx with
      | none => simp [CryptonightR_get_program, hstr, if_pos hv, hdev] at h
      | some dev =>
        have hrh : requestHash env ctx variant height
            = some (env.calcHash dev
                (spliceAt env.template (get_code (env.randomMath variant height)) off)
                (assembledOptions env variant)) := by
          rw [requestHash, hstr, hdev]
          rfl
        cases hlk : lookup cache variant height ctx.deviceIdx
            (env.calcHash dev
              (spliceAt env.template (get_code (env.randomMath variant height)) off)
              (assembledOptions env variant)) with
        | some e =>
          simp only [CryptonightR_get_program, hstr, if_pos hv, hdev, hlk,
            Bool.false_eq_true, if_false] at h ⊢
          obtain ⟨hmem, h1, h2, h3, h4⟩ := lookup_some hlk
          exact ⟨e, hmem, Option.some.inj h, h1, h2, h3, by rw [hrh, h4]⟩
        | none =>
          simp only [CryptonightR_get_program, hstr, if_pos hv, hdev, hlk,
            Bool.false_eq_true, if_false] at h ⊢
          obtain ⟨e, hmem, h1, h2, h3, h4, h5⟩ := build_program_program_some h
          exact ⟨e, hmem, h1, h2, h3, h4, by rw [hrh, h5]⟩
    · simp [CryptonightR_get_program, hstr, if_neg hv] at h

/-- Claim C10 witness: the concrete first-hit call returns handle 7, which
is the program of the cached entry matching the request key and computed
fingerprint. -/
theorem C10_witness :
    ∃ e ∈ (CryptonightR_get_program envC ctxC VARIANT_WOW 100 false (some 3)
        cacheC).cache,
      e.program = 7 ∧ e.variant = VARIANT_WOW ∧ e.height = 100 ∧
        e.deviceIdx = ctxC.deviceIdx ∧
        requestHash envC ctxC VARIANT_WOW 100 = some e.hash :=
  C10_result_from_cache envC ctxC VARIANT_WOW 100 (some 3) cacheC 7 (by decide)

/-- Claim C8 (amended): for any number of threads `n > 0` concurrently
requesting the same (variant, height, device, fingerprint) key against a
cold cache, under any interleaving of the protocol steps, once every thread
has finished: if every external build call succeeds, exactly one external
build call has occurred and every thread holds the same program handle —
the one handed out by that single build, serialized by the single
process-wide build mutex; if every external build call fails, all threads
observe failure (a null result) — but then each thread that reached the
build made its own external call, so the build count is not one (see the
counterexample refuting the claim as originally stated). -/
theorem C8_one_build_or_all_fail {n : Nat} (hn : 0 < n) (k : Key)
    (progOf : Nat → Nat) (buildOk : Nat → Bool)
    (hH : k.height + PRECOMPILATION_DEPTH < U64) (s : Sys n)
    (hreach : Relation.ReflTransGen (Step n k progOf buildOk) (Init n) s)
    (hdone : ∀ i : Fin n, ∃ r, s.ts i = TState.done r) :
    ((∀ b, buildOk b = true) →
      s.builds = 1 ∧ ∀ i : Fin n, s.ts i = TState.done (some (progOf 0)))
  ∧ ((∀ b, buildOk b = false) → ∀ i : Fin n, s.ts i = TState.done none) := by
  constructor
  · intro hOk
    obtain ⟨hlock, hphase⟩ := inv_reach hOk hH hreach
    rcases hphase with ⟨hb, hc, hni⟩ | ⟨hb, hc, ⟨j, hj⟩, hnd⟩ | ⟨hb, hc, hnb, hdv⟩
    · obtain ⟨r, hr⟩ := hdone ⟨0, hn⟩
      exact absurd hr ((hni ⟨0, hn⟩).1 r)
    · obtain ⟨r, hr⟩ := hdone j
      exact absurd hr (hnd j r)
    · refine ⟨hb, fun i => ?_⟩
      obtain ⟨r, hr⟩ := hdone i
      rw [hr, hdv i r hr]
  · intro hFail i
    obtain ⟨hlock, hc, hins, hdv⟩ := invFail_reach hFail hreach
    obtain ⟨r, hr⟩ := hdone i
    rw [hr, hdv i r hr]

/-- Claim C8 counterexample, refuting the claim as originally stated: with
two threads and failing external builds, the explicit interleaving — thread
0 runs lookup-miss, eviction, acquire, re-check-miss and a failing build,
then thread 1 does the same because the failed build was never cached —
reaches a state in which both threads are done (all observe failure) yet
two external build calls occurred, not exactly one. -/
theorem C8_two_build_calls_on_failure :
    Relation.ReflTransGen (Step 2 kC progC failC) (Init 2) f10C
  ∧ (∀ i : Fin 2, ∃ r, f10C.ts i = TState.done r)
  ∧ f10C.builds = 2 ∧ ¬ f10C.builds = 1 := by
  refine ⟨?_, ?_, by decide, by decide⟩
  · exact
      Relation.ReflTransGen.head (Step.lookup1_miss f0C j0 rfl rfl)
        (Relation.ReflTransGen.head (Step.evictStep f1C j0 (by decide))
          (Relation.ReflTransGen.head (Step.acquireStep f2C j0 (by decide) rfl)
            (Relation.ReflTransGen.head
              (Step.recheck_miss f3C j0 (by decide) rfl (by decide))
              (Relation.ReflTransGen.head
                (Step.buildFailStep f4C j0 (by decide) rfl (by decide))
                (Relation.ReflTransGen.head
                  (Step.lookup1_miss f5C j1 (by decide) (by decide))
                  (Relation.ReflTransGen.head (Step.evictStep f6C j1 (by decide))
                    (Relation.ReflTransGen.head
                      (Step.acquireStep f7C j1 (by decide) (by decide))
                      (Relation.ReflTransGen.head
                        (Step.recheck_miss f8C j1 (by decide) rfl (by decide))
                        (Relation.ReflTransGen.head
                          (Step.buildFailStep f9C j1 (by decide) rfl (by decide))
                          Relation.ReflTransGen.refl)))))))))
  · intro i
    exact ⟨none, by revert i; decide⟩

/-- Claim C8 witness: the explicit one-thread trace with succeeding builds —
first-lookup miss, eviction, mutex acquisition, re-check miss, build,
insert — reaches an all-done state, and the theorem yields exactly one
build with the built handle observed. -/
theorem C8_witness :
    s6C.builds = 1 ∧ ∀ i : Fin 1, s6C.ts i = TState.done (some (progC 0)) :=
  (C8_one_build_or_all_fail Nat.one_pos kC progC okC (by decide) s6C
    (Relation.ReflTransGen.head (Step.lookup1_miss s0C i0 rfl rfl)
      (Relation.ReflTransGen.head (Step.evictStep s1C i0 (by decide))
        (Relation.ReflTransGen.head (Step.acquireStep s2C i0 (by decide) rfl)
          (Relation.ReflTransGen.head
            (Step.recheck_miss s3C i0 (by decide) rfl (by decide))
            (Relation.ReflTransGen.head
              (Step.buildStep s4C i0 (by decide) rfl rfl)
              (Relation.ReflTransGen.head
                (Step.insertStep s5C i0 (progC 0) (by decide) rfl)
                Relation.ReflTransGen.refl))))))
    (fun i => ⟨some (progC 0), by revert i; decide⟩)).1 (fun b => rfl)


/-- Claim C2 witness: at a concrete build-path call with outgoing handle 3,
the release of that handle is among the emitted events (indeed the first). -/
theorem C2_witness :
    Event.releaseKernel 3 ∈
      (CryptonightR_build_program envC ctxC VARIANT_WOW 100 (some 3) "s" "o" "H"
        cacheC).events := by
  obtain ⟨rest, hev, -⟩ :=
    C2_build_releases_old_kernel envC ctxC VARIANT_WOW 100 3 "s" "o" "H" cacheC
  rw [hev]
  exact List.mem_cons_self _ _

end OclCnR
